import Mathlib

/-!
Verification of the bytecode code generator (codegen.hpp).

The embedding follows the source file src/src/codegen.hpp. The byte sink
(CodeGeneratorBase) is modelled as a fixed-capacity buffer (a list whose
length is the capacity, with arbitrary initial contents, since the C++
buffer is allocated uninitialized) together with a write cursor and a
count of diagnostics issued through program.error. Every emplace
operation either succeeds (EmpRes.ok) or hits a failed assertion
(EmpRes.fail); the failure carries the state at the failure point so that
partially performed multi-byte writes are observable.

C++ machine integers are modelled as Nat (unsigned) and Int (signed),
with explicit reductions modulo 256, 65536 and 4294967296 where the
source narrows a value to uint8_t, uint16_t or uint32_t. Floats are
abstracted by the three observations the code generator makes of them:
the comparison with 0.0f, the reinterpretation of the 4 IEEE-754 bytes,
and the int16_t cast of value * 16.0f.

Declarations of the compiler intermediate representation live in
compiler.hpp, which is not part of the sources; those few definitions are
modelled from the specification and marked as such in their doc comment.
-/

namespace G3sc

/-- The recognized code generation options (ProgramContext::opt). The
field named has_text_label_prefix in the source is called
has_text_label_prefix_opt here. -/
structure Options where
  optimize_zero_floats : Bool
  use_half_float : Bool
  use_local_offsets : Bool
  has_text_label_prefix_opt : Bool
deriving DecidableEq

/-- Script types (ScriptType in the source). -/
inductive ScriptType
  | main
  | mainExtension
  | subscript
  | mission
  | streamedScript
deriving DecidableEq

/-- Modelled from the spec: the Script record of compiler.hpp is not under
src/. It carries a type, an optional absolute offset in the final image,
an optional size in bytes, and a path whose stem is used for streamed
script names. The sid field stands for the identity of the underlying
C++ object, so that pointer comparisons can be expressed. -/
structure Script where
  sid : Nat
  type : ScriptType
  offset : Option Nat
  size : Option Nat
  stem : List Nat
deriving DecidableEq

/-- Modelled from the spec: the Label record of compiler.hpp is not under
src/. A label is owned by one script and carries the local offset
assigned by compute_labels. The lid field stands for the identity of the
underlying C++ object. -/
structure Label where
  lid : Nat
  script : Script
  local_offset : Option Nat
deriving DecidableEq

/-- Modelled from the spec: Label::offset() of compiler.hpp is not under
src/. The spec defines the derived absolute offset of a label as the
image offset of the owning script plus the local offset of the label;
both optionals must be engaged. -/
def Label.offsetAbs (l : Label) : Option Nat :=
  match l.script.offset, l.local_offset with
  | some so, some lo => some (so + lo)
  | _, _ => none

/-- Variable element types (VarType in the source). -/
inductive VarType
  | int
  | float
  | textLabel
  | textLabel16
deriving DecidableEq

/-- Modelled from the spec: the numeric values of the VarType enum are
declared in compiler.hpp, which is not under src/. They are only observed
through the masked byte (type & 0x7F) in the array-indexed variable
encoding; no claim depends on the concrete values chosen here. -/
def VarType.code : VarType → Nat
  | .int => 0
  | .float => 1
  | .textLabel => 2
  | .textLabel16 => 3

/-- Modelled from the spec: the Var record of compiler.hpp is not under
src/. global says whether the variable is a global one; index is the
local numbering; offsetB stands for the result of Var::offset(), the
global byte offset; count is the optional array length. -/
structure Var where
  global : Bool
  vtype : VarType
  index : Nat
  offsetB : Nat
  count : Option Nat
deriving DecidableEq

/-- The index alternative of a CompiledVar: a compile-time int32 or a
runtime variable (variant of int32_t and shared_ptr of Var). -/
inductive CompiledVarIndex
  | asInt (i : Int)
  | asVar (v : Var)
deriving DecidableEq

/-- A variable reference in the IR (CompiledVar in the source). -/
structure CompiledVar where
  var : Var
  index : Option CompiledVarIndex
deriving DecidableEq

/-- The kinds of compiled strings (CompiledString::Type). -/
inductive CSType
  | textLabel8
  | textLabel16
  | stringVar
  | string128
deriving DecidableEq

/-- A string in the IR (CompiledString). The storage is the byte content
of the std::string, which does not include the terminating NUL. -/
structure CompiledString where
  type : CSType
  storage : List Nat
deriving DecidableEq

/-- A C++ float abstracted by the three observations generate_code and
compiled_size make of it: isZero is the result of the comparison with
0.0f, bits is the reinterpretation of the value as uint32_t (the IEEE-754
bit pattern), and half is static_cast to int16_t of value * 16.0f. -/
structure FloatVal where
  isZero : Bool
  bits : Nat
  half : Int
deriving DecidableEq

/-- An argument of a command (the ArgVariant sum of the source: EOAL,
int8_t, int16_t, int32_t, float, shared_ptr of Label, CompiledVar,
CompiledString). -/
inductive ArgVariant
  | eoal
  | int8 (v : Int)
  | int16 (v : Int)
  | int32 (v : Int)
  | flt (f : FloatVal)
  | labelRef (l : Label)
  | varRef (cv : CompiledVar)
  | strArg (s : CompiledString)
deriving DecidableEq

/-- A compiled command: opcode plus argument list (CompiledCommand). -/
structure CompiledCommand where
  id : Nat
  args : List ArgVariant
deriving DecidableEq

/-- Modelled from the spec: the variant set of CompiledData.data is
declared in compiler.hpp, which is not under src/. The spec enumerates
the IR node variants: EOAL, the three integer widths, float, label
reference, variable reference, string, command, label definition and raw
hex passthrough. generate_code and compiled_size dispatch on this sum. -/
inductive CompiledData
  | eoal
  | int8 (v : Int)
  | int16 (v : Int)
  | int32 (v : Int)
  | flt (f : FloatVal)
  | labelRef (l : Label)
  | varRef (cv : CompiledVar)
  | strData (s : CompiledString)
  | cmd (c : CompiledCommand)
  | labelDef (l : Label)
  | hex (bs : List Nat)
deriving DecidableEq

/-- The header dialects (CompiledScmHeader::Version). -/
inductive Version
  | liberty
  | miami
  | sanAndreas
deriving DecidableEq

/-- The SCM header descriptor (CompiledScmHeader). Model names are byte
lists; scripts is the full script list. -/
structure CompiledScmHeader where
  version : Version
  size_global_vars_space : Nat
  models : List (List Nat)
  num_missions : Nat
  num_streamed : Nat
  scripts : List Script
deriving DecidableEq

/-! ### The byte sink (CodeGeneratorBase) -/

/-- The mutable state of a code generator: the backing buffer (its length
is max_offset, the capacity; its initial contents are arbitrary because
the C++ allocation is uninitialized), the write cursor, and the number of
diagnostics issued through program.error. -/
structure CodeGen where
  buf : List Nat
  offset : Nat
  errors : Nat
deriving DecidableEq

/-- Result of an emplace operation: success, or a failed assertion. The
failed case carries the state at the moment the assertion fired, so bytes
written before the failure are observable. -/
inductive EmpRes
  | ok (st : CodeGen)
  | fail (st : CodeGen)
deriving DecidableEq

def EmpRes.bind (r : EmpRes) (f : CodeGen → EmpRes) : EmpRes :=
  match r with
  | .ok st => f st
  | .fail st => .fail st

def EmpRes.isOk : EmpRes → Bool
  | .ok _ => true
  | .fail _ => false

/-- The state carried by the result, whether ok or failed. -/
def EmpRes.stOf : EmpRes → CodeGen
  | .ok st => st
  | .fail st => st

/-- Writes the bytes bs at consecutive positions starting at p,
overwriting the previous contents (out of range positions are dropped by
List.set, but every use is guarded by a capacity assertion). -/
def setBytesL : List Nat → Nat → List Nat → List Nat
  | buf, _, [] => buf
  | buf, p, b :: rest => setBytesL (buf.set p b) (p + 1) rest

/-- emplace_u8: assert offset + 1 <= max_offset, then store the byte and
advance the cursor. The reduction modulo 256 models the uint8_t
parameter. -/
def emplace_u8 (st : CodeGen) (value : Nat) : EmpRes :=
  if st.offset + 1 ≤ st.buf.length then
    EmpRes.ok { st with buf := st.buf.set st.offset (value % 256), offset := st.offset + 1 }
  else EmpRes.fail st

/-- emplace_u16: two emplace_u8 calls, low byte first. The own assertion
of this operation is commented out in the source. The uint16_t parameter
is value % 65536; (v & 0x00FF) >> 0 is v % 256 and (v & 0xFF00) >> 8 is
v / 256 % 256. -/
def emplace_u16 (st : CodeGen) (value : Nat) : EmpRes :=
  let v := value % 65536
  EmpRes.bind (emplace_u8 st (v % 256)) (fun st => emplace_u8 st (v / 256 % 256))

/-- emplace_u32: four emplace_u8 calls, little-endian. The own assertion
of this operation is commented out in the source. (v & 0x00FF0000) >> 16
is v / 65536 % 256 and (v & 0xFF000000) >> 24 is v / 16777216 % 256. -/
def emplace_u32 (st : CodeGen) (value : Nat) : EmpRes :=
  let v := value % 4294967296
  EmpRes.bind (emplace_u8 st (v % 256)) (fun st =>
  EmpRes.bind (emplace_u8 st (v / 256 % 256)) (fun st =>
  EmpRes.bind (emplace_u8 st (v / 65536 % 256)) (fun st =>
  emplace_u8 st (v / 16777216 % 256))))

/-- emplace_i8: reinterpret the int8_t as uint8_t (two's complement). -/
def emplace_i8 (st : CodeGen) (value : Int) : EmpRes :=
  emplace_u8 st (Int.toNat (Int.emod value 256))

/-- emplace_i16: reinterpret the int16_t as uint16_t. -/
def emplace_i16 (st : CodeGen) (value : Int) : EmpRes :=
  emplace_u16 st (Int.toNat (Int.emod value 65536))

/-- emplace_i32: reinterpret the int32_t as uint32_t. -/
def emplace_i32 (st : CodeGen) (value : Int) : EmpRes :=
  emplace_u32 st (Int.toNat (Int.emod value 4294967296))

/-- The bytes strncpy(dest, data, count) stores: the first count bytes of
data, padded with NUL bytes when data is shorter than count. -/
def charsBytes (count : Nat) (data : List Nat) : List Nat :=
  data.take count ++ List.replicate (count - data.length) 0

/-- emplace_chars: assert offset + count <= max_offset, then strncpy
count bytes (zero padded past the end of the string). -/
def emplace_chars (st : CodeGen) (count : Nat) (data : List Nat) : EmpRes :=
  if st.offset + count ≤ st.buf.length then
    EmpRes.ok { st with buf := setBytesL st.buf st.offset (charsBytes count data),
                        offset := st.offset + count }
  else EmpRes.fail st

/-- emplace_bytes: assert, then memcpy count raw bytes. Every call site
passes the size of the source as count. -/
def emplace_bytes (st : CodeGen) (count : Nat) (bytes : List Nat) : EmpRes :=
  if st.offset + count ≤ st.buf.length then
    EmpRes.ok { st with buf := setBytesL st.buf st.offset (bytes.take count),
                        offset := st.offset + count }
  else EmpRes.fail st

/-- emplace_fill: assert, then memset count copies of val. -/
def emplace_fill (st : CodeGen) (count : Nat) (val : Nat) : EmpRes :=
  if st.offset + count ≤ st.buf.length then
    EmpRes.ok { st with buf := setBytesL st.buf st.offset (List.replicate count (val % 256)),
                        offset := st.offset + count }
  else EmpRes.fail st

/-! ### compiled_size -/

/-- compiled_size of EOAL. -/
def compiled_size_eoal : Nat := 1

/-- compiled_size of an int8 literal: tag plus one byte. -/
def compiled_size_int8 : Nat := 1 + 1

/-- compiled_size of an int16 literal: tag plus two bytes. -/
def compiled_size_int16 : Nat := 1 + 2

/-- compiled_size of an int32 literal: tag plus four bytes. -/
def compiled_size_int32 : Nat := 1 + 4

/-- compiled_size of a float literal, depending on the options. -/
def compiled_size_float (opt : Options) (f : FloatVal) : Nat :=
  if opt.optimize_zero_floats && f.isZero then 1 + 1
  else if opt.use_half_float then 1 + 2
  else 1 + 4

/-- compiled_size of a label reference: tag plus an int32. -/
def compiled_size_label : Nat := 1 + 4

/-- compiled_size of a variable reference. -/
def compiled_size_var (cv : CompiledVar) : Nat :=
  match cv.index with
  | none => 1 + 2
  | some (.asInt _) => 1 + 2
  | some (.asVar _) => 1 + 2 * 2 + 1 * 2

/-- compiled_size of a compiled string. -/
def compiled_size_str (opt : Options) (s : CompiledString) : Nat :=
  match s.type with
  | .textLabel8 => (if opt.has_text_label_prefix_opt then 1 else 0) + 8
  | .textLabel16 => 1 + 16
  | .stringVar => 1 + 1 + s.storage.length
  | .string128 => 128

/-- compiled_size of one command argument (the ArgVariant overload). -/
def compiled_size_arg (opt : Options) : ArgVariant → Nat
  | .eoal => compiled_size_eoal
  | .int8 _ => compiled_size_int8
  | .int16 _ => compiled_size_int16
  | .int32 _ => compiled_size_int32
  | .flt f => compiled_size_float opt f
  | .labelRef _ => compiled_size_label
  | .varRef cv => compiled_size_var cv
  | .strArg s => compiled_size_str opt s

/-- compiled_size of a command: the uint16 opcode plus its arguments. -/
def compiled_size_cmd (opt : Options) (c : CompiledCommand) : Nat :=
  2 + (c.args.map (compiled_size_arg opt)).sum

/-- compiled_size of an IR node (the CompiledData overload). The sizes of
the label definition and hex passthrough variants are the member
functions CompiledLabelDef::compiled_size and CompiledHex::compiled_size
of compiler.hpp, which is not under src/; they are modelled from the spec
table: a label definition occupies 0 bytes and a hex node occupies the
length of its raw bytes. -/
def compiled_size_data (opt : Options) : CompiledData → Nat
  | .eoal => compiled_size_eoal
  | .int8 _ => compiled_size_int8
  | .int16 _ => compiled_size_int16
  | .int32 _ => compiled_size_int32
  | .flt f => compiled_size_float opt f
  | .labelRef _ => compiled_size_label
  | .varRef cv => compiled_size_var cv
  | .strData s => compiled_size_str opt s
  | .cmd c => compiled_size_cmd opt c
  | .labelDef _ => 0
  | .hex bs => bs.length

/-- CompiledScmHeader::compiled_size, the closed-form header size. -/
def CompiledScmHeader.compiled_size (h : CompiledScmHeader) : Nat :=
  match h.version with
  | .liberty | .miami =>
    8 + (h.size_global_vars_space - 8) + 8 + 4 + (24 * (1 + h.models.length))
      + 8 + 4 + 4 + 2 + 2 + (4 * h.num_missions)
  | .sanAndreas =>
    8 + (h.size_global_vars_space - 8) + 8 + 4 + (24 * (1 + h.models.length))
      + 8 + 4 + 4 + 2 + 2 + (4 * h.num_missions) + 4
      + 8 + 4 + 4 + (28 * (1 + h.num_streamed))
      + 8 + 4 + 8 + 4 + 1 + 1 + 2

/-! ### compute_labels (CodeGenerator::compute_labels) -/

def CompiledData.isLabelDef : CompiledData → Bool
  | .labelDef _ => true
  | _ => false

/-- The forward pass of CodeGenerator::compute_labels. The C++ loop
mutates each label object in place; here the assignments are returned as
a log of (label identity, assigned local offset) pairs, in pass order.
The first component is the final offset, returned as the script size. -/
def compute_labels_go (opt : Options) : List CompiledData → Nat → Nat × List (Nat × Nat)
  | [], offset => (offset, [])
  | d :: rest, offset =>
    match d with
    | .labelDef l =>
      let r := compute_labels_go opt rest offset
      (r.1, (l.lid, offset) :: r.2)
    | _ => compute_labels_go opt rest (offset + compiled_size_data opt d)

/-- CodeGenerator::compute_labels: the pass starts from offset 0. -/
def compute_labels (opt : Options) (irs : List CompiledData) : Nat × List (Nat × Nat) :=
  compute_labels_go opt irs 0

/-! ### generate_code for IR nodes -/

/-- static_cast from uint32_t to int32_t (two's complement wrap). -/
def toI32 (n : Nat) : Int :=
  let m := n % 4294967296
  (m : Int) - (if m < 2147483648 then 0 else 4294967296)

def generate_eoal (st : CodeGen) : EmpRes :=
  emplace_u8 st 0

def generate_int8 (st : CodeGen) (value : Int) : EmpRes :=
  EmpRes.bind (emplace_u8 st 4) (fun st => emplace_i8 st value)

def generate_int16 (st : CodeGen) (value : Int) : EmpRes :=
  EmpRes.bind (emplace_u8 st 5) (fun st => emplace_i16 st value)

def generate_int32 (st : CodeGen) (value : Int) : EmpRes :=
  EmpRes.bind (emplace_u8 st 1) (fun st => emplace_i32 st value)

/-- generate_code for a float literal: zero optimization first, then the
half-float encoding, then the raw IEEE-754 bit pattern. -/
def generate_float (opt : Options) (st : CodeGen) (f : FloatVal) : EmpRes :=
  if opt.optimize_zero_floats && f.isZero then
    generate_int8 st 0
  else if opt.use_half_float then
    EmpRes.bind (emplace_u8 st 6) (fun st => emplace_i16 st f.half)
  else
    EmpRes.bind (emplace_u8 st 6) (fun st => emplace_u32 st f.bits)

/-- The emplace_local_offset lambda inside generate_code for a label:
reports a diagnostic when the offset to be negated is zero, and emplaces
the negated offset either way. -/
def emplace_local_offset (st : CodeGen) (offset : Int) : EmpRes :=
  let st1 := if offset = 0 then { st with errors := st.errors + 1 } else st
  emplace_i32 st1 (-offset)

/-- generate_code for a label reference. The sc parameter is
codegen.script, the script being generated; the assertion that an
intra-script reference stays within the generating script compares the
object identities. A disengaged optional (Label::offset() or
Label::local_offset with .value()) aborts, modelled as EmpRes.fail. -/
def generate_label (opt : Options) (sc : Script) (st : CodeGen) (l : Label) : EmpRes :=
  EmpRes.bind (emplace_u8 st 1) (fun st =>
    if opt.use_local_offsets then
      match l.offsetAbs with
      | some a => emplace_local_offset st (toI32 a)
      | none => EmpRes.fail st
    else if l.script.type == ScriptType.mission || l.script.type == ScriptType.streamedScript then
      if l.script.sid == sc.sid then
        match l.local_offset with
        | some lo => emplace_local_offset st (toI32 lo)
        | none => EmpRes.fail st
      else EmpRes.fail st
    else
      match l.offsetAbs with
      | some a => emplace_i32 st (a : Int)
      | none => EmpRes.fail st)

/-- generate_code for a compiled string. The Expects conditions on the
storage size (enforced upstream by the annotation pass) are modelled as
assertion failures. -/
def generate_string (opt : Options) (st : CodeGen) (s : CompiledString) : EmpRes :=
  match s.type with
  | .textLabel8 =>
    if s.storage.length ≤ 8 then
      EmpRes.bind (if opt.has_text_label_prefix_opt then emplace_u8 st 9 else EmpRes.ok st)
        (fun st => emplace_chars st 8 s.storage)
    else EmpRes.fail st
  | .textLabel16 =>
    if s.storage.length ≤ 16 then
      EmpRes.bind (emplace_u8 st 15) (fun st => emplace_chars st 16 s.storage)
    else EmpRes.fail st
  | .stringVar =>
    if s.storage.length ≤ 127 then
      EmpRes.bind (emplace_u8 st 14) (fun st =>
      EmpRes.bind (emplace_u8 st (s.storage.length % 256)) (fun st =>
      emplace_chars st s.storage.length s.storage))
    else EmpRes.fail st
  | .string128 => emplace_chars st 128 s.storage

/-- The type tag of a variable reference without runtime index. -/
def varTagBasic (global : Bool) : VarType → Nat
  | .int => if global then 2 else 3
  | .float => if global then 2 else 3
  | .textLabel => if global then 10 else 11
  | .textLabel16 => if global then 16 else 17

/-- The type tag of a variable reference with a runtime variable index. -/
def varTagArray (global : Bool) : VarType → Nat
  | .int => if global then 7 else 8
  | .float => if global then 7 else 8
  | .textLabel => if global then 12 else 13
  | .textLabel16 => if global then 18 else 19

/-- generate_code for a variable reference. The static_cast to uint16_t
of the possibly negative compile-time indexed address is the Euclidean
remainder modulo 65536. In the packed type byte, (type & 0x7F) is
type % 128 and the disjunction with (global << 7) is an addition because
the masked value is below 128. -/
def generate_var (st : CodeGen) (cv : CompiledVar) : EmpRes :=
  let global := cv.var.global
  match cv.index with
  | none =>
    EmpRes.bind (emplace_u8 st (varTagBasic global cv.var.vtype)) (fun st =>
    emplace_u16 st (if global then cv.var.offsetB else cv.var.index))
  | some (.asInt i) =>
    EmpRes.bind (emplace_u8 st (varTagBasic global cv.var.vtype)) (fun st =>
    emplace_u16 st (Int.toNat (Int.emod
      (if global then (cv.var.offsetB : Int) + i * 4 else (cv.var.index : Int) + i) 65536)))
  | some (.asVar ivar) =>
    EmpRes.bind (emplace_u8 st (varTagArray global cv.var.vtype)) (fun st =>
    EmpRes.bind (emplace_u16 st (if global then cv.var.offsetB else cv.var.index)) (fun st =>
    EmpRes.bind (emplace_u16 st (if ivar.global then ivar.offsetB else ivar.index)) (fun st =>
    match cv.var.count with
    | some c =>
      EmpRes.bind (emplace_u8 st (c % 256)) (fun st =>
      emplace_u8 st (cv.var.vtype.code % 128 + (if ivar.global then 128 else 0)))
    | none => EmpRes.fail st)))

/-- generate_code for one command argument (the ArgVariant overload). -/
def generate_arg (opt : Options) (sc : Script) (st : CodeGen) : ArgVariant → EmpRes
  | .eoal => generate_eoal st
  | .int8 v => generate_int8 st v
  | .int16 v => generate_int16 st v
  | .int32 v => generate_int32 st v
  | .flt f => generate_float opt st f
  | .labelRef l => generate_label opt sc st l
  | .varRef cv => generate_var st cv
  | .strArg s => generate_string opt st s

/-- The argument loop of generate_code for a command. -/
def generate_args (opt : Options) (sc : Script) : CodeGen → List ArgVariant → EmpRes
  | st, [] => EmpRes.ok st
  | st, a :: rest =>
    EmpRes.bind (generate_arg opt sc st a) (fun st => generate_args opt sc st rest)

/-- generate_code for a command: the uint16 opcode, then each argument. -/
def generate_cmd (opt : Options) (sc : Script) (st : CodeGen) (c : CompiledCommand) : EmpRes :=
  EmpRes.bind (emplace_u16 st c.id) (fun st => generate_args opt sc st c.args)

/-- generate_code for an IR node (the CompiledData overload). A label
definition has no physical representation; a hex node is a raw copy. -/
def generate_data (opt : Options) (sc : Script) (st : CodeGen) : CompiledData → EmpRes
  | .eoal => generate_eoal st
  | .int8 v => generate_int8 st v
  | .int16 v => generate_int16 st v
  | .int32 v => generate_int32 st v
  | .flt f => generate_float opt st f
  | .labelRef l => generate_label opt sc st l
  | .varRef cv => generate_var st cv
  | .strData s => generate_string opt st s
  | .cmd c => generate_cmd opt sc st c
  | .labelDef _ => EmpRes.ok st
  | .hex bs => emplace_bytes st bs.length bs

/-- The loop of CodeGenerator::generate over the compiled IR. -/
def generate_loop (opt : Options) (sc : Script) : CodeGen → List CompiledData → EmpRes
  | st, [] => EmpRes.ok st
  | st, d :: rest =>
    EmpRes.bind (generate_data opt sc st d) (fun st => generate_loop opt sc st rest)

/-- CodeGenerator::generate: allocates a buffer of script.size.value()
bytes (uninitialized, the init parameter supplies the arbitrary initial
contents) and emits every IR node. -/
def CodeGenerator.generate (opt : Options) (sc : Script) (irs : List CompiledData)
    (init : List Nat) : EmpRes :=
  match sc.size with
  | some n => generate_loop opt sc ⟨init.take n ++ List.replicate (n - init.length) 0, 0, 0⟩ irs
  | none => EmpRes.fail ⟨[], 0, 0⟩

/-! ### generate_code for the SCM header (CodeGeneratorData) -/

/-- The target identifier byte of the variables segment. -/
def target_id : Version → Int
  | .liberty => 0
  | .miami => 109
  | .sanAndreas => 115

/-- The goto_rel lambda: the jump over data trampoline. The i32 target
is 8 + skip_bytes + current_offset. -/
def goto_rel (st : CodeGen) (skip_bytes : Int) : EmpRes :=
  let target : Int := 8 + skip_bytes + (st.offset : Int)
  EmpRes.bind (emplace_u16 st 2) (fun st =>
  EmpRes.bind (emplace_u8 st 1) (fun st =>
  emplace_i32 st target))

/-- The loop over header.scripts in generate_code for the header.
Returns (increment of main_size, increment of multifile_size,
largest_mission_size, largest_streamed_size, mission list, streamed
list) in encounter order, or none when a size optional is disengaged
(the C++ .value() call would abort). -/
def scanScripts : List Script → Option (Nat × Nat × Nat × Nat × List Script × List Script)
  | [] => some (0, 0, 0, 0, [], [])
  | sc :: rest =>
    match sc.size, scanScripts rest with
    | some sz, some (ms, mfs, lm, ls, mi, str) =>
      match sc.type with
      | .mission => some (ms, mfs + sz, max lm sz, ls, sc :: mi, str)
      | .streamedScript => some (ms, mfs, lm, max ls sz, mi, sc :: str)
      | _ => some (ms + sz, mfs + sz, lm, ls, mi, str)
    | _, _ => none

/-- The variables segment: trampoline over size_globals - 8 bytes, then
the target id byte and the zero fill of the global variables space. The
uint32 subtraction size_globals - 8 passed to goto_rel is exact on Int
for any size_globals (a wrap to a large uint32 reads back as the same
negative int32); the count passed to emplace_fill is the Nat truncated
subtraction, which agrees with the source whenever size_globals is at
least 8. -/
def gen_seg_vars (ver : Version) (sg : Nat) (st : CodeGen) : EmpRes :=
  EmpRes.bind (goto_rel st ((sg : Int) - 8)) (fun st =>
  EmpRes.bind (emplace_i8 st (target_id ver)) (fun st =>
  emplace_fill st (sg - 8) 0))

/-- The loop emitting the 24-byte model names. -/
def emit_models : CodeGen → List (List Nat) → EmpRes
  | st, [] => EmpRes.ok st
  | st, m :: rest =>
    EmpRes.bind (emplace_chars st 24 m) (fun st => emit_models st rest)

/-- The models segment: trampoline, segment id, count 1 + N, a blank
24-byte name, then the model names. -/
def gen_seg_models (models : List (List Nat)) (segid : Nat) (st : CodeGen) : EmpRes :=
  EmpRes.bind (goto_rel st (4 + 24 * (1 + (models.length : Int)))) (fun st =>
  EmpRes.bind (emplace_u8 st segid) (fun st =>
  EmpRes.bind (emplace_u32 st (1 + models.length)) (fun st =>
  EmpRes.bind (emplace_chars st 24 []) (fun st =>
  emit_models st models))))

/-- The loop emitting the absolute offsets of the mission scripts. A
disengaged offset optional aborts (.value()). -/
def emit_mission_offsets : CodeGen → List Script → EmpRes
  | st, [] => EmpRes.ok st
  | st, sc :: rest =>
    match sc.offset with
    | some o => EmpRes.bind (emplace_i32 st (o : Int)) (fun st => emit_mission_offsets st rest)
    | none => EmpRes.fail st

/-- The SCM info segment: trampoline, segment id, main_size,
largest_mission_size, mission count, zero exclusive missions, the
SanAndreas only highest-locals field, then the mission offsets. -/
def gen_seg_scminfo (isSA : Bool) (segid mainSize largestMission : Nat)
    (missions : List Script) (st : CodeGen) : EmpRes :=
  EmpRes.bind (goto_rel st (4 + 4 + 2 + 2 + 4 * (missions.length : Int)
    + (if isSA then 4 else 0))) (fun st =>
  EmpRes.bind (emplace_u8 st segid) (fun st =>
  EmpRes.bind (emplace_u32 st mainSize) (fun st =>
  EmpRes.bind (emplace_u32 st largestMission) (fun st =>
  EmpRes.bind (emplace_u16 st missions.length) (fun st =>
  EmpRes.bind (emplace_u16 st 0) (fun st =>
  EmpRes.bind (if isSA then emplace_u32 st 0 else EmpRes.ok st) (fun st =>
  emit_mission_offsets st missions)))))))

/-- ::toupper on a byte, C locale. -/
def toupperB (b : Nat) : Nat :=
  if 97 ≤ b ∧ b ≤ 122 then b - 32 else b

/-- The loop emitting one 28-byte record per streamed script: the
upper-cased 20-byte name, the accumulated virtual offset, the size. -/
def emit_streameds : CodeGen → Nat → List Script → EmpRes
  | st, _, [] => EmpRes.ok st
  | st, voff, sc :: rest =>
    match sc.size with
    | some sz =>
      EmpRes.bind (emplace_chars st 20 (sc.stem.map toupperB)) (fun st =>
      EmpRes.bind (emplace_u32 st voff) (fun st =>
      EmpRes.bind (emplace_u32 st sz) (fun st =>
      emit_streameds st (voff + sz) rest)))
    | none => EmpRes.fail st

/-- The streamed scripts segment (SanAndreas only): trampoline, segment
id, largest streamed size, count 1 + N, the records, then the sentinel
AAA record (name bytes 65 65 65, offset 0, size 8). -/
def gen_seg_streamed (segid largestStreamed multifileSize : Nat)
    (streameds : List Script) (st : CodeGen) : EmpRes :=
  EmpRes.bind (goto_rel st (4 + 4 + 28 * (1 + (streameds.length : Int)))) (fun st =>
  EmpRes.bind (emplace_u8 st segid) (fun st =>
  EmpRes.bind (emplace_u32 st largestStreamed) (fun st =>
  EmpRes.bind (emplace_u32 st (1 + streameds.length)) (fun st =>
  EmpRes.bind (emit_streameds st multifileSize streameds) (fun st =>
  EmpRes.bind (emplace_chars st 20 [65, 65, 65]) (fun st =>
  EmpRes.bind (emplace_u32 st 0) (fun st =>
  emplace_u32 st 8)))))))

/-- The first unknown segment (SanAndreas only). -/
def gen_seg_unknown (segid : Nat) (st : CodeGen) : EmpRes :=
  EmpRes.bind (goto_rel st 4) (fun st =>
  EmpRes.bind (emplace_u8 st segid) (fun st =>
  emplace_u32 st 0))

/-- The second unknown segment (SanAndreas only): the magic bytes 62 and
2 are preserved verbatim from the source. The emplace_u32 of
size_globals - 8 uses the Nat truncated subtraction, agreeing with the
uint32 source value whenever size_globals is at least 8. -/
def gen_seg_unknown2 (segid sg : Nat) (st : CodeGen) : EmpRes :=
  EmpRes.bind (goto_rel st (4 + 1 + 1 + 2)) (fun st =>
  EmpRes.bind (emplace_u8 st segid) (fun st =>
  EmpRes.bind (emplace_u32 st (sg - 8)) (fun st =>
  EmpRes.bind (emplace_u8 st 62) (fun st =>
  EmpRes.bind (emplace_u8 st 2) (fun st =>
  emplace_u16 st 0)))))

/-- generate_code for the SCM header. The nextseg_id closure yields 0 for
every segment outside SanAndreas and the sequence 0, 1, 2, 3, 4 on
SanAndreas; since the segments run in a fixed order the values are
inlined at each call site. -/
def generate_header (h : CompiledScmHeader) (st : CodeGen) : EmpRes :=
  match scanScripts h.scripts with
  | none => EmpRes.fail st
  | some (mainAdd, mfAdd, largestMission, largestStreamed, missions, streameds) =>
    let isSA := h.version == Version.sanAndreas
    let head_size := h.compiled_size
    EmpRes.bind (gen_seg_vars h.version h.size_global_vars_space st) (fun st =>
    EmpRes.bind (gen_seg_models h.models 0 st) (fun st =>
    EmpRes.bind (gen_seg_scminfo isSA (if isSA then 1 else 0) (head_size + mainAdd)
      largestMission missions st) (fun st =>
    EmpRes.bind (if isSA then
        gen_seg_streamed 2 largestStreamed (head_size + mfAdd) streameds st
      else EmpRes.ok st) (fun st =>
    EmpRes.bind (if isSA then gen_seg_unknown 3 st else EmpRes.ok st) (fun st =>
    if isSA then gen_seg_unknown2 4 h.size_global_vars_space st else EmpRes.ok st)))))

/-- CodeGeneratorData::generate: allocates a buffer of
header.compiled_size() bytes (uninitialized, the init parameter supplies
the arbitrary initial contents) and emits the header. -/
def CodeGeneratorData.generate (h : CompiledScmHeader) (init : List Nat) : EmpRes :=
  let n := h.compiled_size
  generate_header h ⟨init.take n ++ List.replicate (n - init.length) 0, 0, 0⟩

/-! ### Little-endian byte images of the emplaced primitives -/

/-- The two bytes emplace_u16 stores, low byte first. -/
def u16le (value : Nat) : List Nat :=
  [value % 65536 % 256, value % 65536 / 256 % 256]

/-- The four bytes emplace_u32 stores, low byte first. -/
def u32le (value : Nat) : List Nat :=
  [value % 4294967296 % 256, value % 4294967296 / 256 % 256,
   value % 4294967296 / 65536 % 256, value % 4294967296 / 16777216 % 256]

/-- The byte emplace_i8 stores. -/
def i8b (value : Int) : Nat :=
  Int.toNat (Int.emod value 256)

/-- The two bytes emplace_i16 stores. -/
def i16le (value : Int) : List Nat :=
  u16le (Int.toNat (Int.emod value 65536))

/-- The four bytes emplace_i32 stores. -/
def i32le (value : Int) : List Nat :=
  u32le (Int.toNat (Int.emod value 4294967296))

theorem u16le_length (value : Nat) : (u16le value).length = 2 := rfl

theorem u32le_length (value : Nat) : (u32le value).length = 4 := rfl

theorem i16le_length (value : Int) : (i16le value).length = 2 := rfl

theorem i32le_length (value : Int) : (i32le value).length = 4 := rfl

theorem charsBytes_length (count : Nat) (data : List Nat) :
    (charsBytes count data).length = count := by
  simp [charsBytes]
  omega

/-! ### Buffer splicing lemmas -/

theorem setBytesL_length (ws : List Nat) : ∀ (buf : List Nat) (p : Nat),
    (setBytesL buf p ws).length = buf.length := by
  induction ws with
  | nil => intro buf p; rfl
  | cons b rest ih =>
    intro buf p
    simp [setBytesL, ih]

theorem setBytesL_append (ws1 ws2 : List Nat) : ∀ (buf : List Nat) (p : Nat),
    setBytesL buf p (ws1 ++ ws2) = setBytesL (setBytesL buf p ws1) (p + ws1.length) ws2 := by
  induction ws1 with
  | nil => intro buf p; simp [setBytesL]
  | cons b rest ih =>
    intro buf p
    show setBytesL (buf.set p b) (p + 1) (rest ++ ws2)
      = setBytesL (setBytesL (buf.set p b) (p + 1) rest) (p + (b :: rest).length) ws2
    rw [ih]
    congr 1
    simp
    omega

theorem setBytesL_splice (ws : List Nat) : ∀ (buf : List Nat) (p : Nat),
    p + ws.length ≤ buf.length →
    setBytesL buf p ws = buf.take p ++ ws ++ buf.drop (p + ws.length) := by
  induction ws with
  | nil =>
    intro buf p _
    simp [setBytesL]
  | cons b rest ih =>
    intro buf p h
    simp only [List.length_cons] at h
    have hp : p < buf.length := by omega
    have hlen_take : (buf.take p).length = p := by
      simp [List.length_take]
      omega
    have hsplit : buf.set p b = buf.take p ++ b :: buf.drop (p + 1) :=
      List.set_eq_take_cons_drop b hp
    show setBytesL (buf.set p b) (p + 1) rest = _
    rw [ih (buf.set p b) (p + 1) (by simp [List.length_set]; omega), hsplit]
    have h1 : (buf.take p ++ b :: buf.drop (p + 1)).take (p + 1) = buf.take p ++ [b] := by
      rw [List.take_append_eq_append_take, hlen_take, List.take_take]
      have hm : min (p + 1) p = p := by omega
      have hs : p + 1 - p = 1 := by omega
      rw [hm, hs]
      simp
    have h2 : (buf.take p ++ b :: buf.drop (p + 1)).drop (p + 1 + rest.length)
        = buf.drop (p + (rest.length + 1)) := by
      rw [List.drop_append_eq_append_drop, hlen_take]
      have hnil : (buf.take p).drop (p + 1 + rest.length) = [] :=
        List.drop_eq_nil_of_le (by rw [hlen_take]; omega)
      have hs : p + 1 + rest.length - p = rest.length + 1 := by omega
      rw [hnil, hs, List.drop_succ_cons, List.drop_drop]
      simp
      congr 1
      omega
    rw [h1, h2]
    simp

/-- Reading back a freshly written region: the bytes at positions
p .. p + ws.length in the spliced buffer are ws. -/
theorem setBytesL_readback (ws buf : List Nat) (p : Nat)
    (h : p + ws.length ≤ buf.length) :
    ((setBytesL buf p ws).drop p).take ws.length = ws := by
  rw [setBytesL_splice ws buf p h]
  have h1 : (buf.take p).length = p := by simp; omega
  have hassoc : buf.take p ++ ws ++ buf.drop (p + ws.length)
      = buf.take p ++ (ws ++ buf.drop (p + ws.length)) := by
    simp [List.append_assoc]
  rw [hassoc, List.drop_append_eq_append_drop, h1]
  have hnil : (buf.take p).drop p = [] := List.drop_eq_nil_of_le (le_of_eq h1)
  rw [hnil]
  simp [List.take_left]

/-! ### The write action and the emission predicates -/

/-- The effect of a successful sequence of emplace calls: splice the
written bytes at the cursor, advance the cursor, add e diagnostics. -/
def wrE (st : CodeGen) (ws : List Nat) (e : Nat) : CodeGen :=
  ⟨setBytesL st.buf st.offset ws, st.offset + ws.length, st.errors + e⟩

theorem wrE_buf_length (st : CodeGen) (ws : List Nat) (e : Nat) :
    (wrE st ws e).buf.length = st.buf.length := by
  simp [wrE, setBytesL_length]

theorem wrE_append (st : CodeGen) (a b : List Nat) (e1 e2 : Nat) :
    wrE st (a ++ b) (e1 + e2) = wrE (wrE st a e1) b e2 := by
  simp only [wrE, setBytesL_append, List.length_append, CodeGen.mk.injEq, true_and]
  omega

/-- Backward characterization: whenever g succeeds from st, the result
is exactly the write of the image bytes (evaluated at the entry cursor)
plus e diagnostics, and the final cursor stays within capacity unless
nothing was written. -/
def EmitsB (g : CodeGen → EmpRes) (out : Nat → List Nat) (e : Nat) : Prop :=
  ∀ st st', g st = EmpRes.ok st' →
    st' = wrE st (out st.offset) e ∧
    (st'.offset ≤ st'.buf.length ∨ (out st.offset).length = 0)

/-- Forward characterization: when the image fits in the remaining
capacity, g succeeds (used for generators that issue no diagnostic). -/
def EmitsF (g : CodeGen → EmpRes) (out : Nat → List Nat) : Prop :=
  ∀ st : CodeGen, st.offset + (out st.offset).length ≤ st.buf.length →
    g st = EmpRes.ok (wrE st (out st.offset) 0)

theorem EmitsB_congr {g : CodeGen → EmpRes} {o1 o2 : Nat → List Nat} {e : Nat}
    (hpt : ∀ p, o1 p = o2 p) (h : EmitsB g o1 e) : EmitsB g o2 e := by
  intro st st' hok
  have := h st st' hok
  rwa [hpt st.offset] at this

theorem EmitsF_congr {g : CodeGen → EmpRes} {o1 o2 : Nat → List Nat}
    (hpt : ∀ p, o1 p = o2 p) (h : EmitsF g o1) : EmitsF g o2 := by
  intro st hcap
  have := h st (by rwa [hpt st.offset])
  rwa [hpt st.offset] at this

theorem EmitsF_congrG {g1 g2 : CodeGen → EmpRes} {o : Nat → List Nat}
    (hg : ∀ st, g1 st = g2 st) (h : EmitsF g1 o) : EmitsF g2 o := by
  intro st hcap
  rw [← hg st]
  exact h st hcap

theorem EmitsB_seq {g1 g2 : CodeGen → EmpRes} {o1 o2 : Nat → List Nat} {e1 e2 : Nat}
    (h1 : EmitsB g1 o1 e1) (h2 : EmitsB g2 o2 e2) :
    EmitsB (fun st => EmpRes.bind (g1 st) g2)
      (fun p => o1 p ++ o2 (p + (o1 p).length)) (e1 + e2) := by
  intro st st' hok
  simp only [EmpRes.bind] at hok
  cases hg1 : g1 st with
  | fail s => rw [hg1] at hok; exact absurd hok (by simp)
  | ok s1 =>
    rw [hg1] at hok
    obtain ⟨heq1, hb1⟩ := h1 st s1 hg1
    obtain ⟨heq2, hb2⟩ := h2 s1 st' hok
    have hoff1 : s1.offset = st.offset + (o1 st.offset).length := by
      rw [heq1]; rfl
    have heq2' : st' = wrE s1 (o2 (st.offset + (o1 st.offset).length)) e2 := by
      rw [← hoff1]; exact heq2
    constructor
    · rw [wrE_append, ← heq1]
      exact heq2'
    · rcases hb2 with hb | hz2
      · exact Or.inl hb
      · rcases hb1 with hb | hz1
        · left
          have h3 : st'.offset = s1.offset + (o2 s1.offset).length := by rw [heq2]; rfl
          have h4 : st'.buf.length = s1.buf.length := by rw [heq2]; exact wrE_buf_length ..
          rw [h3, h4, hz2]
          omega
        · right
          have hz2' : (o2 (st.offset + (o1 st.offset).length)).length = 0 := by
            rw [← hoff1]; exact hz2
          have harg : st.offset + (o1 st.offset).length = st.offset := by
            omega
          have hz2'' : (o2 st.offset).length = 0 := by
            rw [harg] at hz2'; exact hz2'
          rw [List.length_append, harg]
          omega

theorem EmitsF_seq {g1 g2 : CodeGen → EmpRes} {o1 o2 : Nat → List Nat}
    (h1 : EmitsF g1 o1) (h2 : EmitsF g2 o2) :
    EmitsF (fun st => EmpRes.bind (g1 st) g2)
      (fun p => o1 p ++ o2 (p + (o1 p).length)) := by
  intro st hcap
  simp only [List.length_append] at hcap
  have hc1 : st.offset + (o1 st.offset).length ≤ st.buf.length := by omega
  have hg1 := h1 st hc1
  simp only [EmpRes.bind, hg1]
  have hoff1 : (wrE st (o1 st.offset) 0).offset = st.offset + (o1 st.offset).length := rfl
  have hlen1 : (wrE st (o1 st.offset) 0).buf.length = st.buf.length := wrE_buf_length ..
  have hc2 := h2 (wrE st (o1 st.offset) 0) (by rw [hoff1, hlen1]; omega)
  rw [hc2, hoff1]
  rw [← wrE_append]

/-! ### Emission lemmas for the primitives -/

theorem emplace_u8_emitsB (v : Nat) :
    EmitsB (fun st => emplace_u8 st v) (fun _ => [v % 256]) 0 := by
  intro st st' hok
  simp only [emplace_u8] at hok
  split at hok
  case isTrue h =>
    cases hok
    refine ⟨rfl, Or.inl ?_⟩
    simpa [List.length_set] using h
  case isFalse h => exact EmpRes.noConfusion hok

theorem emplace_u8_emitsF (v : Nat) :
    EmitsF (fun st => emplace_u8 st v) (fun _ => [v % 256]) := by
  intro st hcap
  simp only [List.length_cons, List.length_nil] at hcap
  simp only [emplace_u8]
  rw [if_pos (by omega)]
  rfl

theorem emplace_u16_emitsB (v : Nat) :
    EmitsB (fun st => emplace_u16 st v) (fun _ => u16le v) 0 := by
  have h := EmitsB_seq (emplace_u8_emitsB (v % 65536 % 256))
    (emplace_u8_emitsB (v % 65536 / 256 % 256))
  refine EmitsB_congr (fun p => ?_) h
  simp only [u16le, List.cons_append, List.nil_append, List.cons.injEq, and_true]
  refine ⟨by omega, by omega⟩

theorem emplace_u16_emitsF (v : Nat) :
    EmitsF (fun st => emplace_u16 st v) (fun _ => u16le v) := by
  have h := EmitsF_seq (emplace_u8_emitsF (v % 65536 % 256))
    (emplace_u8_emitsF (v % 65536 / 256 % 256))
  refine EmitsF_congr (fun p => ?_) h
  simp only [u16le, List.cons_append, List.nil_append, List.cons.injEq, and_true]
  refine ⟨by omega, by omega⟩

theorem emplace_u32_emitsB (v : Nat) :
    EmitsB (fun st => emplace_u32 st v) (fun _ => u32le v) 0 := by
  have h := EmitsB_seq (emplace_u8_emitsB (v % 4294967296 % 256))
    (EmitsB_seq (emplace_u8_emitsB (v % 4294967296 / 256 % 256))
      (EmitsB_seq (emplace_u8_emitsB (v % 4294967296 / 65536 % 256))
        (emplace_u8_emitsB (v % 4294967296 / 16777216 % 256))))
  refine EmitsB_congr (fun p => ?_) h
  simp only [u32le, List.cons_append, List.nil_append, List.cons.injEq, and_true]
  refine ⟨by omega, by omega, by omega, by omega⟩

theorem emplace_u32_emitsF (v : Nat) :
    EmitsF (fun st => emplace_u32 st v) (fun _ => u32le v) := by
  have h := EmitsF_seq (emplace_u8_emitsF (v % 4294967296 % 256))
    (EmitsF_seq (emplace_u8_emitsF (v % 4294967296 / 256 % 256))
      (EmitsF_seq (emplace_u8_emitsF (v % 4294967296 / 65536 % 256))
        (emplace_u8_emitsF (v % 4294967296 / 16777216 % 256))))
  refine EmitsF_congr (fun p => ?_) h
  simp only [u32le, List.cons_append, List.nil_append, List.cons.injEq, and_true]
  refine ⟨by omega, by omega, by omega, by omega⟩

theorem emplace_i8_emitsB (v : Int) :
    EmitsB (fun st => emplace_i8 st v) (fun _ => [i8b v % 256]) 0 :=
  emplace_u8_emitsB (i8b v)

theorem emplace_i8_emitsF (v : Int) :
    EmitsF (fun st => emplace_i8 st v) (fun _ => [i8b v % 256]) :=
  emplace_u8_emitsF (i8b v)

theorem emplace_i16_emitsB (v : Int) :
    EmitsB (fun st => emplace_i16 st v) (fun _ => i16le v) 0 :=
  emplace_u16_emitsB (Int.toNat (Int.emod v 65536))

theorem emplace_i16_emitsF (v : Int) :
    EmitsF (fun st => emplace_i16 st v) (fun _ => i16le v) :=
  emplace_u16_emitsF (Int.toNat (Int.emod v 65536))

theorem emplace_i32_emitsB (v : Int) :
    EmitsB (fun st => emplace_i32 st v) (fun _ => i32le v) 0 :=
  emplace_u32_emitsB (Int.toNat (Int.emod v 4294967296))

theorem emplace_i32_emitsF (v : Int) :
    EmitsF (fun st => emplace_i32 st v) (fun _ => i32le v) :=
  emplace_u32_emitsF (Int.toNat (Int.emod v 4294967296))

theorem emplace_chars_emitsB (count : Nat) (data : List Nat) :
    EmitsB (fun st => emplace_chars st count data) (fun _ => charsBytes count data) 0 := by
  intro st st' hok
  simp only [emplace_chars] at hok
  split at hok
  case isTrue h =>
    cases hok
    constructor
    · simp [wrE, charsBytes_length]
    · left
      simp only [setBytesL_length, charsBytes_length]
      exact h
  case isFalse h => exact EmpRes.noConfusion hok

theorem emplace_chars_emitsF (count : Nat) (data : List Nat) :
    EmitsF (fun st => emplace_chars st count data) (fun _ => charsBytes count data) := by
  intro st hcap
  rw [charsBytes_length] at hcap
  simp only [emplace_chars]
  rw [if_pos hcap]
  simp [wrE, charsBytes_length]

theorem emplace_bytes_emitsB (bs : List Nat) :
    EmitsB (fun st => emplace_bytes st bs.length bs) (fun _ => bs) 0 := by
  intro st st' hok
  simp only [emplace_bytes] at hok
  split at hok
  case isTrue h =>
    cases hok
    constructor
    · simp [wrE, List.take_length]
    · left
      simpa [setBytesL_length] using h
  case isFalse h => exact EmpRes.noConfusion hok

theorem emplace_bytes_emitsF (bs : List Nat) :
    EmitsF (fun st => emplace_bytes st bs.length bs) (fun _ => bs) := by
  intro st hcap
  simp only [emplace_bytes]
  rw [if_pos hcap]
  simp [wrE, List.take_length]

theorem emplace_fill_emitsB (count val : Nat) :
    EmitsB (fun st => emplace_fill st count val)
      (fun _ => List.replicate count (val % 256)) 0 := by
  intro st st' hok
  simp only [emplace_fill] at hok
  split at hok
  case isTrue h =>
    cases hok
    constructor
    · simp [wrE]
    · left
      simpa [setBytesL_length] using h
  case isFalse h => exact EmpRes.noConfusion hok

theorem emplace_fill_emitsF (count val : Nat) :
    EmitsF (fun st => emplace_fill st count val)
      (fun _ => List.replicate count (val % 256)) := by
  intro st hcap
  simp only [List.length_replicate] at hcap
  simp only [emplace_fill]
  rw [if_pos hcap]
  simp [wrE]

theorem ok_emitsB : EmitsB (fun st => EmpRes.ok st) (fun _ => []) 0 := by
  intro st st' hok
  cases hok
  exact ⟨rfl, Or.inr rfl⟩

theorem ok_emitsF : EmitsF (fun st => EmpRes.ok st) (fun _ => []) := by
  intro st _
  rfl

theorem ite_emitsB (c : Bool) {g : CodeGen → EmpRes} {o : Nat → List Nat}
    (h : EmitsB g o 0) :
    EmitsB (fun st => if c then g st else EmpRes.ok st)
      (fun p => if c then o p else []) 0 := by
  cases c with
  | false => simpa using ok_emitsB
  | true => simpa using h

theorem ite_emitsF (c : Bool) {g : CodeGen → EmpRes} {o : Nat → List Nat}
    (h : EmitsF g o) :
    EmitsF (fun st => if c then g st else EmpRes.ok st)
      (fun p => if c then o p else []) := by
  cases c with
  | false => simpa using ok_emitsF
  | true => simpa using h

/-- The bytes goto_rel emits at cursor p. -/
def trampBytes (skip : Int) (p : Nat) : List Nat :=
  u16le 2 ++ 1 :: i32le (8 + skip + p)

theorem trampBytes_length (skip : Int) (p : Nat) : (trampBytes skip p).length = 7 := rfl

theorem goto_rel_emitsB (skip : Int) :
    EmitsB (fun st => goto_rel st skip) (trampBytes skip) 0 := by
  intro st st' hok
  have h := EmitsB_seq (emplace_u16_emitsB 2)
    (EmitsB_seq (emplace_u8_emitsB 1)
      (emplace_i32_emitsB (8 + skip + (st.offset : Int))))
  obtain ⟨heq, hb⟩ := h st st' hok
  constructor
  · simpa [trampBytes] using heq
  · simpa [trampBytes] using hb

theorem goto_rel_emitsF (skip : Int) :
    EmitsF (fun st => goto_rel st skip) (trampBytes skip) := by
  intro st hcap
  have h := EmitsF_seq (emplace_u16_emitsF 2)
    (EmitsF_seq (emplace_u8_emitsF 1)
      (emplace_i32_emitsF (8 + skip + (st.offset : Int))))
  have := h st (by simpa [trampBytes] using hcap)
  simpa [trampBytes] using this

/-! ### Emission lemmas for the IR node generators -/

theorem i8b_lt (v : Int) : i8b v < 256 := by
  unfold i8b
  have h1 : 0 ≤ Int.emod v 256 := Int.emod_nonneg v (by norm_num)
  have h2 : Int.emod v 256 < 256 := Int.emod_lt_of_pos v (by norm_num)
  omega

theorem EmitsB_congrE {g : CodeGen → EmpRes} {o : Nat → List Nat} {e1 e2 : Nat}
    (he : e1 = e2) (h : EmitsB g o e1) : EmitsB g o e2 := he ▸ h

/-- A generator that can never succeed satisfies EmitsB vacuously. -/
def NeverOk (g : CodeGen → EmpRes) : Prop :=
  ∀ st st', g st = EmpRes.ok st' → False

theorem NeverOk.emitsB {g : CodeGen → EmpRes} (h : NeverOk g)
    (o : Nat → List Nat) (e : Nat) : EmitsB g o e :=
  fun st st' hok => absurd hok (fun hk => h st st' hk)

theorem fail_neverOk : NeverOk (fun st => EmpRes.fail st) :=
  fun _ _ hok => EmpRes.noConfusion hok

theorem NeverOk.bind (g1 : CodeGen → EmpRes) {g2 : CodeGen → EmpRes}
    (h : NeverOk g2) : NeverOk (fun st => EmpRes.bind (g1 st) g2) := by
  intro st st' hok
  have hok' : EmpRes.bind (g1 st) g2 = EmpRes.ok st' := hok
  cases hg : g1 st with
  | ok s1 =>
    rw [hg] at hok'
    exact h s1 st' hok'
  | fail s1 =>
    rw [hg] at hok'
    exact EmpRes.noConfusion hok'

theorem generate_eoal_emitsB : EmitsB generate_eoal (fun _ => [0]) 0 :=
  emplace_u8_emitsB 0

theorem generate_int8_emitsB (v : Int) :
    EmitsB (fun st => generate_int8 st v) (fun _ => [4, i8b v]) 0 := by
  have h := EmitsB_seq (emplace_u8_emitsB 4) (emplace_i8_emitsB v)
  refine EmitsB_congr (fun p => ?_) h
  have hib : i8b v % 256 = i8b v := Nat.mod_eq_of_lt (i8b_lt v)
  simp [hib]

theorem generate_int16_emitsB (v : Int) :
    EmitsB (fun st => generate_int16 st v) (fun _ => 5 :: i16le v) 0 := by
  have h := EmitsB_seq (emplace_u8_emitsB 5) (emplace_i16_emitsB v)
  refine EmitsB_congr (fun p => ?_) h
  rfl

theorem generate_int32_emitsB (v : Int) :
    EmitsB (fun st => generate_int32 st v) (fun _ => 1 :: i32le v) 0 := by
  have h := EmitsB_seq (emplace_u8_emitsB 1) (emplace_i32_emitsB v)
  refine EmitsB_congr (fun p => ?_) h
  rfl

/-- The bytes the float generator emits. -/
def floatBytes (opt : Options) (f : FloatVal) : List Nat :=
  if opt.optimize_zero_floats && f.isZero then [4, 0]
  else if opt.use_half_float then 6 :: i16le f.half
  else 6 :: u32le f.bits

theorem generate_float_emitsB (opt : Options) (f : FloatVal) :
    EmitsB (fun st => generate_float opt st f) (fun _ => floatBytes opt f) 0 := by
  by_cases h1 : (opt.optimize_zero_floats && f.isZero) = true
  · intro st st' hok
    simp only [generate_float, h1, if_true] at hok
    have h := generate_int8_emitsB 0 st st' hok
    simpa [floatBytes, h1, i8b] using h
  · by_cases h2 : opt.use_half_float = true
    · intro st st' hok
      simp only [generate_float, h1, h2, if_true, Bool.false_eq_true, if_false] at hok
      have h := EmitsB_seq (emplace_u8_emitsB 6) (emplace_i16_emitsB f.half) st st' hok
      simpa [floatBytes, h1, h2] using h
    · intro st st' hok
      simp only [generate_float, h1, h2, Bool.false_eq_true, if_false] at hok
      have h := EmitsB_seq (emplace_u8_emitsB 6) (emplace_u32_emitsB f.bits) st st' hok
      simpa [floatBytes, h1, h2] using h

theorem emplace_local_offset_emitsB (off : Int) :
    EmitsB (fun st => emplace_local_offset st off) (fun _ => i32le (-off))
      (if off = 0 then 1 else 0) := by
  intro st st' hok
  simp only [emplace_local_offset] at hok
  by_cases h0 : off = 0
  · rw [if_pos h0] at hok
    obtain ⟨heq, hb⟩ := emplace_i32_emitsB (-off) _ st' hok
    rw [if_pos h0]
    refine ⟨?_, hb⟩
    rw [heq]
    simp [wrE]
  · rw [if_neg h0] at hok
    obtain ⟨heq, hb⟩ := emplace_i32_emitsB (-off) _ st' hok
    rw [if_neg h0]
    exact ⟨heq, hb⟩

/-- The default read of the absolute label offset; generate_code only
reads it when the optional is engaged. -/
def labelAbsD (l : Label) : Nat := (Label.offsetAbs l).getD 0

/-- The bytes the label reference generator emits when it succeeds. -/
def labelBytes (opt : Options) (l : Label) : List Nat :=
  if opt.use_local_offsets then
    1 :: i32le (-(toI32 (labelAbsD l)))
  else if l.script.type == ScriptType.mission || l.script.type == ScriptType.streamedScript then
    1 :: i32le (-(toI32 (l.local_offset.getD 0)))
  else
    1 :: i32le ((labelAbsD l : Int))

/-- The diagnostics the label reference generator issues: one when a
zero offset is negated. -/
def labelErr (opt : Options) (l : Label) : Nat :=
  if opt.use_local_offsets then
    (if toI32 (labelAbsD l) = 0 then 1 else 0)
  else if l.script.type == ScriptType.mission || l.script.type == ScriptType.streamedScript then
    (if toI32 (l.local_offset.getD 0) = 0 then 1 else 0)
  else 0

theorem generate_label_emitsB (opt : Options) (sc : Script) (l : Label) :
    EmitsB (fun st => generate_label opt sc st l) (fun _ => labelBytes opt l)
      (labelErr opt l) := by
  by_cases hulo : opt.use_local_offsets = true
  · cases habs : l.offsetAbs with
    | some a =>
      have h := EmitsB_seq (emplace_u8_emitsB 1)
        (emplace_local_offset_emitsB (toI32 a))
      intro st st' hok
      simp only [generate_label, hulo, if_true, habs] at hok
      have := h st st' hok
      simpa [labelBytes, labelErr, hulo, labelAbsD, habs] using this
    | none =>
      refine NeverOk.emitsB ?_ _ _
      have hinner : NeverOk (fun st : CodeGen =>
          match l.offsetAbs with
          | some a => emplace_local_offset st (toI32 a)
          | none => EmpRes.fail st) := by
        rw [habs]
        exact fail_neverOk
      have := NeverOk.bind (fun st => emplace_u8 st 1) hinner
      intro st st' hok
      refine this st st' ?_
      simpa only [generate_label, hulo, if_true] using hok
  · by_cases hms : (l.script.type == ScriptType.mission
        || l.script.type == ScriptType.streamedScript) = true
    · by_cases hsid : (l.script.sid == sc.sid) = true
      · cases hlo : l.local_offset with
        | some lo =>
          have h := EmitsB_seq (emplace_u8_emitsB 1)
            (emplace_local_offset_emitsB (toI32 lo))
          intro st st' hok
          simp only [generate_label, hulo, hms, hsid, if_true, if_false, hlo,
            Bool.false_eq_true] at hok
          have := h st st' hok
          simpa [labelBytes, labelErr, hulo, hms, hlo] using this
        | none =>
          refine NeverOk.emitsB ?_ _ _
          intro st st' hok
          simp only [generate_label, hulo, hms, hsid, if_true, if_false, hlo,
            Bool.false_eq_true] at hok
          exact (NeverOk.bind (fun st => emplace_u8 st 1) fail_neverOk) st st' hok
      · refine NeverOk.emitsB ?_ _ _
        intro st st' hok
        simp only [generate_label, hulo, hms, hsid, if_true, if_false,
          Bool.false_eq_true] at hok
        exact (NeverOk.bind (fun st => emplace_u8 st 1) fail_neverOk) st st' hok
    · cases habs : l.offsetAbs with
      | some a =>
        have h := EmitsB_seq (emplace_u8_emitsB 1) (emplace_i32_emitsB (a : Int))
        intro st st' hok
        simp only [generate_label, hulo, hms, if_false, habs,
          Bool.false_eq_true] at hok
        have := h st st' hok
        simpa [labelBytes, labelErr, hulo, hms, labelAbsD, habs] using this
      | none =>
        refine NeverOk.emitsB ?_ _ _
        intro st st' hok
        simp only [generate_label, hulo, hms, if_false, habs,
          Bool.false_eq_true] at hok
        exact (NeverOk.bind (fun st => emplace_u8 st 1) fail_neverOk) st st' hok

/-- The bytes the string generator emits when it succeeds. -/
def strBytes (opt : Options) (s : CompiledString) : List Nat :=
  match s.type with
  | .textLabel8 =>
    (if opt.has_text_label_prefix_opt then [9] else []) ++ charsBytes 8 s.storage
  | .textLabel16 => 15 :: charsBytes 16 s.storage
  | .stringVar => 14 :: s.storage.length % 256 :: charsBytes s.storage.length s.storage
  | .string128 => charsBytes 128 s.storage

theorem generate_string_emitsB (opt : Options) (s : CompiledString) :
    EmitsB (fun st => generate_string opt st s) (fun _ => strBytes opt s) 0 := by
  cases hty : s.type with
  | textLabel8 =>
    by_cases hlen : s.storage.length ≤ 8
    · have h := EmitsB_seq (ite_emitsB opt.has_text_label_prefix_opt (emplace_u8_emitsB 9))
        (emplace_chars_emitsB 8 s.storage)
      intro st st' hok
      simp only [generate_string, hty, if_pos hlen] at hok
      have := h st st' hok
      have hout : (if opt.has_text_label_prefix_opt then [9 % 256] else []) ++
          charsBytes 8 s.storage = strBytes opt s := by
        by_cases hp : opt.has_text_label_prefix_opt = true <;>
          simp [strBytes, hty, hp]
      simpa [hout] using this
    · refine NeverOk.emitsB ?_ _ _
      intro st st' hok
      simp only [generate_string, hty, if_neg hlen] at hok
      exact EmpRes.noConfusion hok
  | textLabel16 =>
    by_cases hlen : s.storage.length ≤ 16
    · intro st st' hok
      simp only [generate_string, hty, if_pos hlen] at hok
      have := EmitsB_seq (emplace_u8_emitsB 15) (emplace_chars_emitsB 16 s.storage) st st' hok
      simpa [strBytes, hty] using this
    · refine NeverOk.emitsB ?_ _ _
      intro st st' hok
      simp only [generate_string, hty, if_neg hlen] at hok
      exact EmpRes.noConfusion hok
  | stringVar =>
    by_cases hlen : s.storage.length ≤ 127
    · intro st st' hok
      simp only [generate_string, hty, if_pos hlen] at hok
      have := EmitsB_seq (emplace_u8_emitsB 14)
        (EmitsB_seq (emplace_u8_emitsB (s.storage.length % 256))
          (emplace_chars_emitsB s.storage.length s.storage)) st st' hok
      have hmm : s.storage.length % 256 % 256 = s.storage.length % 256 := by omega
      simpa [strBytes, hty, hmm] using this
    · refine NeverOk.emitsB ?_ _ _
      intro st st' hok
      simp only [generate_string, hty, if_neg hlen] at hok
      exact EmpRes.noConfusion hok
  | string128 =>
    intro st st' hok
    simp only [generate_string, hty] at hok
    have := emplace_chars_emitsB 128 s.storage st st' hok
    simpa [strBytes, hty] using this

theorem varTagBasic_lt (g : Bool) (t : VarType) : varTagBasic g t < 256 := by
  cases t <;> cases g <;> simp [varTagBasic]

theorem varTagArray_lt (g : Bool) (t : VarType) : varTagArray g t < 256 := by
  cases t <;> cases g <;> simp [varTagArray]

/-- The bytes the variable reference generator emits when it succeeds. -/
def varBytes (cv : CompiledVar) : List Nat :=
  match cv.index with
  | none =>
    varTagBasic cv.var.global cv.var.vtype ::
      u16le (if cv.var.global then cv.var.offsetB else cv.var.index)
  | some (.asInt i) =>
    varTagBasic cv.var.global cv.var.vtype ::
      u16le (Int.toNat (Int.emod
        (if cv.var.global then (cv.var.offsetB : Int) + i * 4
          else (cv.var.index : Int) + i) 65536))
  | some (.asVar ivar) =>
    varTagArray cv.var.global cv.var.vtype ::
      (u16le (if cv.var.global then cv.var.offsetB else cv.var.index) ++
       u16le (if ivar.global then ivar.offsetB else ivar.index) ++
       [cv.var.count.getD 0 % 256,
        cv.var.vtype.code % 128 + (if ivar.global then 128 else 0)])

theorem generate_var_emitsB (cv : CompiledVar) :
    EmitsB (fun st => generate_var st cv) (fun _ => varBytes cv) 0 := by
  cases hidx : cv.index with
  | none =>
    intro st st' hok
    simp only [generate_var, hidx] at hok
    have := EmitsB_seq (emplace_u8_emitsB (varTagBasic cv.var.global cv.var.vtype))
      (emplace_u16_emitsB (if cv.var.global then cv.var.offsetB else cv.var.index))
      st st' hok
    have htag : varTagBasic cv.var.global cv.var.vtype % 256
        = varTagBasic cv.var.global cv.var.vtype :=
      Nat.mod_eq_of_lt (varTagBasic_lt _ _)
    simpa [varBytes, hidx, htag] using this
  | some vix =>
    cases vix with
    | asInt i =>
      intro st st' hok
      simp only [generate_var, hidx] at hok
      have := EmitsB_seq (emplace_u8_emitsB (varTagBasic cv.var.global cv.var.vtype))
        (emplace_u16_emitsB (Int.toNat (Int.emod
          (if cv.var.global then (cv.var.offsetB : Int) + i * 4
            else (cv.var.index : Int) + i) 65536))) st st' hok
      have htag : varTagBasic cv.var.global cv.var.vtype % 256
          = varTagBasic cv.var.global cv.var.vtype :=
        Nat.mod_eq_of_lt (varTagBasic_lt _ _)
      simpa [varBytes, hidx, htag] using this
    | asVar ivar =>
      cases hcnt : cv.var.count with
      | some c =>
        intro st st' hok
        simp only [generate_var, hidx, hcnt] at hok
        have := EmitsB_seq (emplace_u8_emitsB (varTagArray cv.var.global cv.var.vtype))
          (EmitsB_seq (emplace_u16_emitsB
              (if cv.var.global then cv.var.offsetB else cv.var.index))
            (EmitsB_seq (emplace_u16_emitsB
                (if ivar.global then ivar.offsetB else ivar.index))
              (EmitsB_seq (emplace_u8_emitsB (c % 256))
                (emplace_u8_emitsB (cv.var.vtype.code % 128
                  + (if ivar.global then 128 else 0)))))) st st' hok
        have htag : varTagArray cv.var.global cv.var.vtype % 256
            = varTagArray cv.var.global cv.var.vtype :=
          Nat.mod_eq_of_lt (varTagArray_lt _ _)
        have hcode : (cv.var.vtype.code % 128 + (if ivar.global then 128 else 0)) % 256
            = cv.var.vtype.code % 128 + (if ivar.global then 128 else 0) := by
          cases ivar.global <;> simp <;> omega
        have hcm : c % 256 % 256 = c % 256 := by omega
        simpa [varBytes, hidx, hcnt, htag, hcode, hcm] using this
      | none =>
        refine NeverOk.emitsB ?_ _ _
        intro st st' hok
        simp only [generate_var, hidx, hcnt] at hok
        refine (NeverOk.bind (fun st =>
            emplace_u8 st (varTagArray cv.var.global cv.var.vtype)) ?_) st st' hok
        refine NeverOk.bind (fun st =>
            emplace_u16 st (if cv.var.global then cv.var.offsetB else cv.var.index)) ?_
        refine NeverOk.bind (fun st =>
            emplace_u16 st (if ivar.global then ivar.offsetB else ivar.index)) ?_
        exact fail_neverOk

/-- The bytes one command argument emits. -/
def argBytes (opt : Options) : ArgVariant → List Nat
  | .eoal => [0]
  | .int8 v => [4, i8b v]
  | .int16 v => 5 :: i16le v
  | .int32 v => 1 :: i32le v
  | .flt f => floatBytes opt f
  | .labelRef l => labelBytes opt l
  | .varRef cv => varBytes cv
  | .strArg s => strBytes opt s

/-- The diagnostics one command argument issues. -/
def argErr (opt : Options) : ArgVariant → Nat
  | .labelRef l => labelErr opt l
  | _ => 0

theorem generate_arg_emitsB (opt : Options) (sc : Script) (a : ArgVariant) :
    EmitsB (fun st => generate_arg opt sc st a) (fun _ => argBytes opt a) (argErr opt a) := by
  cases a with
  | eoal => exact generate_eoal_emitsB
  | int8 v => exact generate_int8_emitsB v
  | int16 v => exact generate_int16_emitsB v
  | int32 v => exact generate_int32_emitsB v
  | flt f => exact generate_float_emitsB opt f
  | labelRef l => exact generate_label_emitsB opt sc l
  | varRef cv => exact generate_var_emitsB cv
  | strArg s => exact generate_string_emitsB opt s

/-- The bytes an argument list emits. -/
def argsBytes (opt : Options) : List ArgVariant → List Nat
  | [] => []
  | a :: rest => argBytes opt a ++ argsBytes opt rest

/-- The diagnostics an argument list issues. -/
def argsErr (opt : Options) : List ArgVariant → Nat
  | [] => 0
  | a :: rest => argErr opt a + argsErr opt rest

theorem generate_args_emitsB (opt : Options) (sc : Script) : ∀ args : List ArgVariant,
    EmitsB (fun st => generate_args opt sc st args)
      (fun _ => argsBytes opt args) (argsErr opt args) := by
  intro args
  induction args with
  | nil => exact ok_emitsB
  | cons a rest ih =>
    exact EmitsB_seq (generate_arg_emitsB opt sc a) ih

/-- The bytes a command emits. -/
def cmdBytes (opt : Options) (c : CompiledCommand) : List Nat :=
  u16le c.id ++ argsBytes opt c.args

theorem generate_cmd_emitsB (opt : Options) (sc : Script) (c : CompiledCommand) :
    EmitsB (fun st => generate_cmd opt sc st c)
      (fun _ => cmdBytes opt c) (argsErr opt c.args) := by
  have h := EmitsB_seq (emplace_u16_emitsB c.id) (generate_args_emitsB opt sc c.args)
  exact EmitsB_congrE (by omega) h

/-- The bytes an IR node emits. -/
def dataBytes (opt : Options) : CompiledData → List Nat
  | .eoal => [0]
  | .int8 v => [4, i8b v]
  | .int16 v => 5 :: i16le v
  | .int32 v => 1 :: i32le v
  | .flt f => floatBytes opt f
  | .labelRef l => labelBytes opt l
  | .varRef cv => varBytes cv
  | .strData s => strBytes opt s
  | .cmd c => cmdBytes opt c
  | .labelDef _ => []
  | .hex bs => bs

/-- The diagnostics an IR node issues. -/
def dataErr (opt : Options) : CompiledData → Nat
  | .labelRef l => labelErr opt l
  | .cmd c => argsErr opt c.args
  | _ => 0

theorem generate_data_emitsB (opt : Options) (sc : Script) (d : CompiledData) :
    EmitsB (fun st => generate_data opt sc st d)
      (fun _ => dataBytes opt d) (dataErr opt d) := by
  cases d with
  | eoal => exact generate_eoal_emitsB
  | int8 v => exact generate_int8_emitsB v
  | int16 v => exact generate_int16_emitsB v
  | int32 v => exact generate_int32_emitsB v
  | flt f => exact generate_float_emitsB opt f
  | labelRef l => exact generate_label_emitsB opt sc l
  | varRef cv => exact generate_var_emitsB cv
  | strData s => exact generate_string_emitsB opt s
  | cmd c => exact generate_cmd_emitsB opt sc c
  | labelDef l => exact ok_emitsB
  | hex bs => exact emplace_bytes_emitsB bs

/-! ### The emitted byte counts agree with compiled_size -/

theorem floatBytes_length (opt : Options) (f : FloatVal) :
    (floatBytes opt f).length = compiled_size_float opt f := by
  by_cases h1 : (opt.optimize_zero_floats && f.isZero) = true <;>
    by_cases h2 : opt.use_half_float = true <;>
      simp [floatBytes, compiled_size_float, h1, h2, i16le, u16le, u32le]

theorem labelBytes_length (opt : Options) (l : Label) :
    (labelBytes opt l).length = compiled_size_label := by
  simp only [labelBytes, compiled_size_label]
  split
  · rfl
  · split <;> rfl

theorem varBytes_length (cv : CompiledVar) :
    (varBytes cv).length = compiled_size_var cv := by
  rcases cv with ⟨v, index⟩
  cases index with
  | none => rfl
  | some vix => cases vix <;> rfl

theorem strBytes_length (opt : Options) (s : CompiledString) :
    (strBytes opt s).length = compiled_size_str opt s := by
  rcases s with ⟨ty, storage⟩
  cases ty with
  | textLabel8 =>
    by_cases hp : opt.has_text_label_prefix_opt = true <;>
      simp [strBytes, compiled_size_str, hp, charsBytes_length]
  | textLabel16 => simp [strBytes, compiled_size_str, charsBytes_length]
  | stringVar =>
    simp [strBytes, compiled_size_str, charsBytes_length]
    omega
  | string128 => simp [strBytes, compiled_size_str, charsBytes_length]

theorem argBytes_length (opt : Options) (a : ArgVariant) :
    (argBytes opt a).length = compiled_size_arg opt a := by
  cases a with
  | flt f => exact floatBytes_length opt f
  | labelRef l => exact labelBytes_length opt l
  | varRef cv => exact varBytes_length cv
  | strArg s => exact strBytes_length opt s
  | _ => rfl

theorem argsBytes_length (opt : Options) : ∀ args : List ArgVariant,
    (argsBytes opt args).length = (args.map (compiled_size_arg opt)).sum := by
  intro args
  induction args with
  | nil => rfl
  | cons a rest ih =>
    simp [argsBytes, argBytes_length, ih]

theorem dataBytes_length (opt : Options) (d : CompiledData) :
    (dataBytes opt d).length = compiled_size_data opt d := by
  cases d with
  | flt f => exact floatBytes_length opt f
  | labelRef l => exact labelBytes_length opt l
  | varRef cv => exact varBytes_length cv
  | strData s => exact strBytes_length opt s
  | cmd c =>
    simp [dataBytes, cmdBytes, compiled_size_data, compiled_size_cmd,
      argsBytes_length, u16le]
    omega
  | _ => rfl

/-! ### Claim theorems -/

/-- C1: for every IR node (every variant of CompiledData.data: EOAL,
int8, int16, int32, float, label reference, variable reference, string,
command, label definition, hex passthrough) and every combination of the
options, the number of bytes generate_code writes when it succeeds — the
advance of the cursor — equals compiled_size of the node. -/
theorem C1_generate_code_writes_compiled_size (opt : Options) (sc : Script)
    (d : CompiledData) (st st' : CodeGen)
    (h : generate_data opt sc st d = EmpRes.ok st') :
    st'.offset = st.offset + compiled_size_data opt d := by
  obtain ⟨heq, _⟩ := generate_data_emitsB opt sc d st st' h
  rw [heq]
  simp [wrE, dataBytes_length]

/-- Witness for C1 at a concrete input: a command with one of each small
argument kind, generated into an adequate buffer. -/
theorem C1_witness :
    generate_data ⟨false, false, false, false⟩ ⟨0, ScriptType.main, none, none, []⟩
      ⟨List.replicate 13 7, 0, 0⟩
      (.cmd ⟨78, [.eoal, .int8 5, .int16 300, .int32 70000]⟩)
      = EmpRes.ok ⟨[78, 0, 0, 4, 5, 5, 44, 1, 1, 112, 17, 1, 0], 13, 0⟩ ∧
    (13 : Nat) = 0 + compiled_size_data ⟨false, false, false, false⟩
      (.cmd ⟨78, [.eoal, .int8 5, .int16 300, .int32 70000]⟩) := by
  constructor
  · rfl
  · exact C1_generate_code_writes_compiled_size ⟨false, false, false, false⟩
      ⟨0, ScriptType.main, none, none, []⟩
      (.cmd ⟨78, [.eoal, .int8 5, .int16 300, .int32 70000]⟩)
      ⟨List.replicate 13 7, 0, 0⟩
      ⟨[78, 0, 0, 4, 5, 5, 44, 1, 1, 112, 17, 1, 0], 13, 0⟩ (by rfl)

/-! ### Claim C2: compute_labels -/

/-- The size of a script: the sum of compiled_size over the non
label definition nodes of its IR. -/
def scriptSize (opt : Options) (irs : List CompiledData) : Nat :=
  ((irs.filter (fun d => ! d.isLabelDef)).map (compiled_size_data opt)).sum

theorem scriptSize_nil (opt : Options) : scriptSize opt [] = 0 := rfl

theorem scriptSize_cons_def (opt : Options) (l : Label) (rest : List CompiledData) :
    scriptSize opt (.labelDef l :: rest) = scriptSize opt rest := by
  simp [scriptSize, List.filter_cons, CompiledData.isLabelDef]

theorem scriptSize_cons_notdef (opt : Options) (d : CompiledData)
    (rest : List CompiledData) (hd : d.isLabelDef = false) :
    scriptSize opt (d :: rest) = compiled_size_data opt d + scriptSize opt rest := by
  simp [scriptSize, List.filter_cons, hd]

theorem compute_labels_go_cons_notdef (opt : Options) (d : CompiledData)
    (hd : d.isLabelDef = false) (rest : List CompiledData) (off : Nat) :
    compute_labels_go opt (d :: rest) off
      = compute_labels_go opt rest (off + compiled_size_data opt d) := by
  cases d <;> first
    | rfl
    | exact absurd hd (by simp [CompiledData.isLabelDef])

theorem isLabelDef_elim (d : CompiledData) (hd : d.isLabelDef = true) :
    ∃ l, d = .labelDef l := by
  cases d <;> simp [CompiledData.isLabelDef] at hd ⊢

theorem compute_labels_go_spec (opt : Options) : ∀ (irs : List CompiledData) (off : Nat),
    (compute_labels_go opt irs off).1 = off + scriptSize opt irs ∧
    (∀ (i : Nat) (l : Label), irs.get? i = some (.labelDef l) →
      (l.lid, off + scriptSize opt (irs.take i)) ∈ (compute_labels_go opt irs off).2) := by
  intro irs
  induction irs with
  | nil =>
    intro off
    constructor
    · simp [compute_labels_go, scriptSize]
    · intro i l hget
      simp [List.get?] at hget
  | cons d rest ih =>
    intro off
    cases hd : d.isLabelDef with
    | true =>
      obtain ⟨l0, rfl⟩ := isLabelDef_elim d hd
      constructor
      · show (compute_labels_go opt rest off).1 = _
        rw [(ih off).1, scriptSize_cons_def]
      · intro i l hget
        cases i with
        | zero =>
          simp only [List.get?] at hget
          cases hget
          simp [compute_labels_go, scriptSize_nil]
        | succ i =>
          simp only [List.get?] at hget
          have hmem := (ih off).2 i l hget
          show _ ∈ (l0.lid, off) :: (compute_labels_go opt rest off).2
          right
          simpa [List.take, scriptSize_cons_def] using hmem
    | false =>
      rw [compute_labels_go_cons_notdef opt d hd rest off]
      constructor
      · rw [(ih (off + compiled_size_data opt d)).1, scriptSize_cons_notdef opt d rest hd]
        omega
      · intro i l hget
        cases i with
        | zero =>
          simp only [List.get?] at hget
          cases hget
          simp [CompiledData.isLabelDef] at hd
        | succ i =>
          simp only [List.get?] at hget
          have hmem := (ih (off + compiled_size_data opt d)).2 i l hget
          have harith : off + compiled_size_data opt d + scriptSize opt (rest.take i)
              = off + scriptSize opt ((d :: rest).take (i + 1)) := by
            rw [List.take_succ_cons, scriptSize_cons_notdef opt d _ hd]
            omega
          rwa [harith] at hmem

/-- C2: compute_labels is the single forward pass from offset 0: each
label definition gets the sum of compiled_size over the IR nodes that
precede it (label definitions contributing nothing, so consecutive
definitions receive the same offset), and the returned value is the sum
of compiled_size over all non label definition nodes, the script size. -/
theorem C2_compute_labels_assigns_prefix_sums (opt : Options) (irs : List CompiledData) :
    (compute_labels opt irs).1 = scriptSize opt irs ∧
    (∀ (i : Nat) (l : Label), irs.get? i = some (.labelDef l) →
      (l.lid, scriptSize opt (irs.take i)) ∈ (compute_labels opt irs).2) := by
  have h := compute_labels_go_spec opt irs 0
  constructor
  · rw [compute_labels, h.1]
    omega
  · intro i l hget
    have := h.2 i l hget
    simpa [compute_labels] using this

/-- Witness for C2 at a concrete input: two consecutive label
definitions after a 2-byte node both receive offset 2, and the script
size is 7. -/
theorem C2_witness :
    ((compute_labels ⟨false, false, false, false⟩
        [.int8 1, .labelDef ⟨5, ⟨0, ScriptType.main, none, none, []⟩, none⟩,
         .labelDef ⟨6, ⟨0, ScriptType.main, none, none, []⟩, none⟩, .cmd ⟨2, []⟩, .eoal]).1
      = scriptSize ⟨false, false, false, false⟩
        [.int8 1, .labelDef ⟨5, ⟨0, ScriptType.main, none, none, []⟩, none⟩,
         .labelDef ⟨6, ⟨0, ScriptType.main, none, none, []⟩, none⟩, .cmd ⟨2, []⟩, .eoal]) ∧
    (6, 2) ∈ (compute_labels ⟨false, false, false, false⟩
        [.int8 1, .labelDef ⟨5, ⟨0, ScriptType.main, none, none, []⟩, none⟩,
         .labelDef ⟨6, ⟨0, ScriptType.main, none, none, []⟩, none⟩, .cmd ⟨2, []⟩, .eoal]).2 := by
  constructor
  · exact (C2_compute_labels_assigns_prefix_sums ⟨false, false, false, false⟩
      [.int8 1, .labelDef ⟨5, ⟨0, ScriptType.main, none, none, []⟩, none⟩,
       .labelDef ⟨6, ⟨0, ScriptType.main, none, none, []⟩, none⟩, .cmd ⟨2, []⟩, .eoal]).1
  · exact (C2_compute_labels_assigns_prefix_sums ⟨false, false, false, false⟩
      [.int8 1, .labelDef ⟨5, ⟨0, ScriptType.main, none, none, []⟩, none⟩,
       .labelDef ⟨6, ⟨0, ScriptType.main, none, none, []⟩, none⟩, .cmd ⟨2, []⟩, .eoal]).2
      2 ⟨6, ⟨0, ScriptType.main, none, none, []⟩, none⟩ (by rfl)

/-! ### Claim C9: capacity assertions of the byte sink -/

theorem mod256_idem (x : Nat) : x % 256 % 256 = x % 256 := by omega

theorem emplace_u8_fail (st : CodeGen) (v : Nat)
    (h : ¬ (st.offset + 1 ≤ st.buf.length)) : emplace_u8 st v = EmpRes.fail st := by
  simp only [emplace_u8]
  rw [if_neg h]

theorem emplace_u8_ok (st : CodeGen) (v : Nat)
    (h : st.offset + 1 ≤ st.buf.length) :
    emplace_u8 st v = EmpRes.ok (wrE st [v % 256] 0) :=
  emplace_u8_emitsF v st (by simpa using h)

/-- C9 counterexample: with capacity 1 and the cursor at 0, the claim
says emplace_u16 asserts 0 + 2 <= 1 before writing anything, so the
failure state would be the untouched state; in fact the low byte of
0x1234 is written (and the cursor advanced) before the per-byte
assertion inside the second emplace_u8 fires. -/
theorem C9_counterexample :
    emplace_u16 ⟨[7], 0, 0⟩ 4660 = EmpRes.fail ⟨[52], 1, 0⟩ ∧
    emplace_u16 ⟨[7], 0, 0⟩ 4660 ≠ EmpRes.fail ⟨[7], 0, 0⟩ := by
  constructor
  · rfl
  · decide

/-- C9 (amended): emplace_u8, emplace_chars, emplace_bytes and
emplace_fill assert cursor + n <= capacity up front and fail with the
state untouched; the multi-byte integer emplacers have their own
assertion commented out and delegate per byte to emplace_u8, so an
over-capacity u16 or u32 write emits the first capacity - cursor bytes
before failing (never writing at or past capacity); the signed variants
are the unsigned ones after a two's complement reinterpretation. -/
theorem C9_amended_per_byte_asserts :
    (∀ (st : CodeGen) (v : Nat), ¬ (st.offset + 1 ≤ st.buf.length) →
      emplace_u8 st v = EmpRes.fail st) ∧
    (∀ (st : CodeGen) (count : Nat) (data : List Nat),
      ¬ (st.offset + count ≤ st.buf.length) →
      emplace_chars st count data = EmpRes.fail st) ∧
    (∀ (st : CodeGen) (count : Nat) (bytes : List Nat),
      ¬ (st.offset + count ≤ st.buf.length) →
      emplace_bytes st count bytes = EmpRes.fail st) ∧
    (∀ (st : CodeGen) (count val : Nat), ¬ (st.offset + count ≤ st.buf.length) →
      emplace_fill st count val = EmpRes.fail st) ∧
    (∀ (st : CodeGen) (v : Nat), st.offset ≤ st.buf.length →
      (st.offset + 2 ≤ st.buf.length →
        emplace_u16 st v = EmpRes.ok (wrE st (u16le v) 0)) ∧
      (st.buf.length < st.offset + 2 →
        emplace_u16 st v
          = EmpRes.fail (wrE st ((u16le v).take (st.buf.length - st.offset)) 0))) ∧
    (∀ (st : CodeGen) (v : Nat), st.offset ≤ st.buf.length →
      (st.offset + 4 ≤ st.buf.length →
        emplace_u32 st v = EmpRes.ok (wrE st (u32le v) 0)) ∧
      (st.buf.length < st.offset + 4 →
        emplace_u32 st v
          = EmpRes.fail (wrE st ((u32le v).take (st.buf.length - st.offset)) 0))) ∧
    (∀ (st : CodeGen) (v : Int), emplace_i8 st v = emplace_u8 st (i8b v)) ∧
    (∀ (st : CodeGen) (v : Int),
      emplace_i16 st v = emplace_u16 st (Int.toNat (Int.emod v 65536))) ∧
    (∀ (st : CodeGen) (v : Int),
      emplace_i32 st v = emplace_u32 st (Int.toNat (Int.emod v 4294967296))) := by
  refine ⟨emplace_u8_fail, ?_, ?_, ?_, ?_, ?_, ?_, ?_, ?_⟩
  · intro st count data h
    simp only [emplace_chars]
    rw [if_neg h]
  · intro st count bytes h
    simp only [emplace_bytes]
    rw [if_neg h]
  · intro st count val h
    simp only [emplace_fill]
    rw [if_neg h]
  · intro st v hle
    constructor
    · intro h2
      exact emplace_u16_emitsF v st (by simpa [u16le_length] using h2)
    · intro h2
      rcases Nat.lt_or_ge st.offset st.buf.length with hlt | hge
      · have hc : st.buf.length - st.offset = 1 := by omega
        rw [hc]
        simp only [emplace_u16]
        rw [emplace_u8_ok st (v % 65536 % 256) (by omega)]
        simp only [EmpRes.bind]
        rw [emplace_u8_fail _ _ (by simp [wrE, setBytesL_length]; omega)]
        simp only [mod256_idem]
        rfl
      · have hc : st.buf.length - st.offset = 0 := by omega
        rw [hc]
        simp only [emplace_u16]
        rw [emplace_u8_fail st _ (by omega)]
        simp only [EmpRes.bind]
        rfl
  · intro st v hle
    constructor
    · intro h2
      exact emplace_u32_emitsF v st (by simpa [u32le_length] using h2)
    · intro h2
      have hcases : st.buf.length - st.offset = 0 ∨ st.buf.length - st.offset = 1
          ∨ st.buf.length - st.offset = 2 ∨ st.buf.length - st.offset = 3 := by omega
      rcases hcases with hc | hc | hc | hc
      · rw [hc]
        simp only [emplace_u32]
        rw [emplace_u8_fail st _ (by omega)]
        simp only [EmpRes.bind]
        rfl
      · rw [hc]
        simp only [emplace_u32]
        rw [emplace_u8_ok st _ (by omega)]
        simp only [EmpRes.bind]
        rw [emplace_u8_fail _ _ (by simp [wrE, setBytesL_length]; omega)]
        simp only [EmpRes.bind, mod256_idem]
        rfl
      · rw [hc]
        simp only [emplace_u32]
        rw [emplace_u8_ok st _ (by omega)]
        simp only [EmpRes.bind]
        rw [emplace_u8_ok _ _ (by simp [wrE, setBytesL_length]; omega)]
        simp only [EmpRes.bind]
        rw [emplace_u8_fail _ _ (by simp [wrE, setBytesL_length]; omega)]
        simp only [EmpRes.bind, mod256_idem]
        rw [← wrE_append]
        rfl
      · rw [hc]
        simp only [emplace_u32]
        rw [emplace_u8_ok st _ (by omega)]
        simp only [EmpRes.bind]
        rw [emplace_u8_ok _ _ (by simp [wrE, setBytesL_length]; omega)]
        simp only [EmpRes.bind]
        rw [emplace_u8_ok _ _ (by simp [wrE, setBytesL_length]; omega)]
        simp only [EmpRes.bind]
        rw [emplace_u8_fail _ _ (by simp [wrE, setBytesL_length]; omega)]
        simp only [EmpRes.bind, mod256_idem]
        rw [← wrE_append, ← wrE_append]
        rfl
  · intro st v
    rfl
  · intro st v
    rfl
  · intro st v
    rfl

/-- Witness for the amended C9: a u32 write into a buffer with one free
byte emits exactly one byte before failing. -/
theorem C9_amended_witness :
    (0 : Nat) ≤ 1 ∧ (1 : Nat) < 0 + 4 ∧
    emplace_u32 ⟨[9], 0, 0⟩ 305419896
      = EmpRes.fail (wrE ⟨[9], 0, 0⟩ ((u32le 305419896).take (1 - 0)) 0) := by
  refine ⟨by decide, by decide, ?_⟩
  exact ((C9_amended_per_byte_asserts.2.2.2.2.2.1 ⟨[9], 0, 0⟩ 305419896
    (by decide)).2 (by decide))

/-! ### Claim C8: emplace_chars zero padding -/

/-- C8: emplace_chars with count n and a string of length at most n
writes exactly n bytes, the string bytes followed by zero padding, and
the padded image is what reads back from the buffer afterwards
regardless of the prior buffer contents (the entry state st, and so its
buffer, is universally quantified). The TextLabel8 scenario with prefix
and storage HELLO is included. -/
theorem C8_emplace_chars_zero_pads (st : CodeGen) (n : Nat) (s : List Nat)
    (st' : CodeGen) (hlen : s.length ≤ n)
    (h : emplace_chars st n s = EmpRes.ok st') :
    st' = wrE st (s ++ List.replicate (n - s.length) 0) 0 ∧
    (st'.buf.drop st.offset).take n = s ++ List.replicate (n - s.length) 0 ∧
    generate_string ⟨false, false, false, true⟩ ⟨List.replicate 9 7, 0, 0⟩
      ⟨CSType.textLabel8, [72, 69, 76, 76, 79]⟩
      = EmpRes.ok ⟨[9, 72, 69, 76, 76, 79, 0, 0, 0], 9, 0⟩ := by
  have hcb : charsBytes n s = s ++ List.replicate (n - s.length) 0 := by
    unfold charsBytes
    rw [List.take_of_length_le hlen]
  simp only [emplace_chars] at h
  split at h
  case isTrue hcap =>
    cases h
    refine ⟨?_, ?_, by rfl⟩
    · rw [← hcb]
      simp [wrE, charsBytes_length]
    · show ((setBytesL st.buf st.offset (charsBytes n s)).drop st.offset).take n = _
      have hrb := setBytesL_readback (charsBytes n s) st.buf st.offset
        (by rw [charsBytes_length]; exact hcap)
      rw [charsBytes_length] at hrb
      rw [hrb, hcb]
  case isFalse hcap => exact EmpRes.noConfusion h

/-- Witness for C8: four chars requested from a two byte string, into a
dirty buffer at cursor 1. -/
theorem C8_witness :
    ([65, 66] : List Nat).length ≤ 4 ∧
    ((⟨[7, 65, 66, 0, 0, 7], 5, 0⟩ : CodeGen)
        = wrE ⟨[7, 7, 7, 7, 7, 7], 1, 0⟩
            ([65, 66] ++ List.replicate (4 - ([65, 66] : List Nat).length) 0) 0 ∧
     (([7, 65, 66, 0, 0, 7] : List Nat).drop 1).take 4
        = [65, 66] ++ List.replicate (4 - ([65, 66] : List Nat).length) 0 ∧
     generate_string ⟨false, false, false, true⟩ ⟨List.replicate 9 7, 0, 0⟩
       ⟨CSType.textLabel8, [72, 69, 76, 76, 79]⟩
       = EmpRes.ok ⟨[9, 72, 69, 76, 76, 79, 0, 0, 0], 9, 0⟩) := by
  refine ⟨by decide, ?_⟩
  exact C8_emplace_chars_zero_pads ⟨[7, 7, 7, 7, 7, 7], 1, 0⟩ 4 [65, 66]
    ⟨[7, 65, 66, 0, 0, 7], 5, 0⟩ (by decide) (by rfl)

/-! ### Claim C5: float encodings -/

/-- C5: floats are encoded in exactly one way, with precedence
optimize_zero_floats (on a zero value) over use_half_float over the raw
IEEE-754 bits: tag 0x04 with a zero byte, tag 0x06 with the int16 of
value * 16, or tag 0x06 with the four IEEE bytes, of compiled_size 2, 3
and 5 respectively; Command(id=0x0002, args=[float(0.0)]) under
optimize_zero_floats emits exactly the bytes 02 00 04 00. -/
theorem C5_float_encoding_precedence (opt : Options) (f : FloatVal)
    (st st' : CodeGen) (h : generate_float opt st f = EmpRes.ok st') :
    st' = wrE st (if opt.optimize_zero_floats && f.isZero then [4, 0]
      else if opt.use_half_float then 6 :: i16le f.half
      else 6 :: u32le f.bits) 0 ∧
    st'.offset = st.offset + compiled_size_float opt f ∧
    compiled_size_float opt f = (if opt.optimize_zero_floats && f.isZero then 2
      else if opt.use_half_float then 3 else 5) ∧
    generate_data ⟨true, false, false, false⟩ ⟨0, ScriptType.main, none, none, []⟩
      ⟨[9, 9, 9, 9], 0, 0⟩ (.cmd ⟨2, [.flt ⟨true, 0, 0⟩]⟩)
      = EmpRes.ok ⟨[2, 0, 4, 0], 4, 0⟩ := by
  obtain ⟨heq, _⟩ := generate_float_emitsB opt f st st' h
  refine ⟨?_, ?_, ?_, by rfl⟩
  · rw [heq]
    rfl
  · rw [heq]
    simp [wrE, floatBytes_length]
  · by_cases h1 : (opt.optimize_zero_floats && f.isZero) = true <;>
      by_cases h2 : opt.use_half_float = true <;>
        simp [compiled_size_float, h1, h2]

/-- Witness for C5: the zero float with the optimization on. -/
theorem C5_witness :
    generate_float ⟨true, false, false, false⟩ ⟨[5, 5], 0, 0⟩ ⟨true, 0, 0⟩
      = EmpRes.ok ⟨[4, 0], 2, 0⟩ ∧
    ((⟨[4, 0], 2, 0⟩ : CodeGen) = wrE ⟨[5, 5], 0, 0⟩
        (if (⟨true, false, false, false⟩ : Options).optimize_zero_floats
            && (⟨true, 0, 0⟩ : FloatVal).isZero then [4, 0]
          else if (⟨true, false, false, false⟩ : Options).use_half_float
            then 6 :: i16le (⟨true, 0, 0⟩ : FloatVal).half
          else 6 :: u32le (⟨true, 0, 0⟩ : FloatVal).bits) 0 ∧
      (⟨[4, 0], 2, 0⟩ : CodeGen).offset = (⟨[5, 5], 0, 0⟩ : CodeGen).offset
        + compiled_size_float ⟨true, false, false, false⟩ ⟨true, 0, 0⟩ ∧
      compiled_size_float ⟨true, false, false, false⟩ ⟨true, 0, 0⟩
        = (if (⟨true, false, false, false⟩ : Options).optimize_zero_floats
            && (⟨true, 0, 0⟩ : FloatVal).isZero then 2
          else if (⟨true, false, false, false⟩ : Options).use_half_float then 3 else 5) ∧
      generate_data ⟨true, false, false, false⟩ ⟨0, ScriptType.main, none, none, []⟩
        ⟨[9, 9, 9, 9], 0, 0⟩ (.cmd ⟨2, [.flt ⟨true, 0, 0⟩]⟩)
        = EmpRes.ok ⟨[2, 0, 4, 0], 4, 0⟩) := by
  refine ⟨by rfl, ?_⟩
  exact C5_float_encoding_precedence ⟨true, false, false, false⟩ ⟨true, 0, 0⟩
    ⟨[5, 5], 0, 0⟩ ⟨[4, 0], 2, 0⟩ (by rfl)

/-! ### Claim C3: label references under use_local_offsets -/

/-- C3 counterexample: with use_local_offsets set, a label with local
offset 4 inside a script whose image offset is 8 is emitted as the
negated absolute offset -12 (bytes F4 FF FF FF), not as the negated
local offset -4 that the claim predicts. -/
theorem C3_counterexample :
    generate_label ⟨false, false, true, false⟩ ⟨1, ScriptType.main, some 8, some 100, []⟩
      ⟨[7, 7, 7, 7, 7], 0, 0⟩ ⟨0, ⟨1, ScriptType.main, some 8, some 100, []⟩, some 4⟩
      = EmpRes.ok ⟨[1, 244, 255, 255, 255], 5, 0⟩ ∧
    ([1, 244, 255, 255, 255] : List Nat) ≠ 1 :: i32le (-(4 : Int)) := by
  exact ⟨by rfl, by decide⟩

/-- C3 (amended): when use_local_offsets is set, every label reference
is emitted as tag 0x01 followed by the negation of the absolute offset
of the label (the image offset of the owning script plus the local
offset, per Label::offset()) as an i32, regardless of the owning script
type, with a diagnostic exactly when that offset is zero. -/
theorem C3_amended_negated_absolute_offset (opt : Options) (sc : Script) (l : Label)
    (st st' : CodeGen) (a : Nat)
    (hulo : opt.use_local_offsets = true) (habs : l.offsetAbs = some a)
    (h : generate_label opt sc st l = EmpRes.ok st') :
    st' = wrE st (1 :: i32le (-(toI32 a))) (if toI32 a = 0 then 1 else 0) := by
  obtain ⟨heq, _⟩ := generate_label_emitsB opt sc l st st' h
  rw [heq]
  simp [labelBytes, labelErr, hulo, labelAbsD, habs]

/-- Witness for the amended C3: a Main script label at absolute offset
12, emitted as -12 with no diagnostic. -/
theorem C3_amended_witness :
    (⟨false, false, true, false⟩ : Options).use_local_offsets = true ∧
    (⟨0, ⟨1, ScriptType.main, some 8, some 100, []⟩, some 4⟩ : Label).offsetAbs = some 12 ∧
    (⟨[1, 244, 255, 255, 255], 5, 0⟩ : CodeGen)
      = wrE ⟨[7, 7, 7, 7, 7], 0, 0⟩ (1 :: i32le (-(toI32 12)))
          (if toI32 12 = 0 then 1 else 0) := by
  refine ⟨rfl, by rfl, ?_⟩
  exact C3_amended_negated_absolute_offset ⟨false, false, true, false⟩
    ⟨1, ScriptType.main, some 8, some 100, []⟩
    ⟨0, ⟨1, ScriptType.main, some 8, some 100, []⟩, some 4⟩
    ⟨[7, 7, 7, 7, 7], 0, 0⟩ ⟨[1, 244, 255, 255, 255], 5, 0⟩ 12
    rfl (by rfl) (by rfl)

/-! ### Claim C4: the zero offset diagnostic -/

/-- C4: for a label reference emitted in a negated mode — either
use_local_offsets is set (the absolute offset is negated) or the owning
script is a Mission or StreamedScript (the local offset is negated) — a
zero offset raises exactly one diagnostic through program.error while
emission continues, writing the 0x01 tag followed by four zero bytes; a
nonzero offset raises no diagnostic. -/
theorem C4_zero_offset_reports_and_continues (opt : Options) (sc : Script) (l : Label)
    (st st' : CodeGen) (off : Nat)
    (hmode : (opt.use_local_offsets = true ∧ l.offsetAbs = some off) ∨
      (opt.use_local_offsets = false
        ∧ (l.script.type = ScriptType.mission ∨ l.script.type = ScriptType.streamedScript)
        ∧ l.local_offset = some off))
    (h : generate_label opt sc st l = EmpRes.ok st') :
    (toI32 off = 0 →
      st'.errors = st.errors + 1 ∧ st' = wrE st [1, 0, 0, 0, 0] 1 ∧
      st'.offset = st.offset + 5) ∧
    (toI32 off ≠ 0 → st'.errors = st.errors) := by
  obtain ⟨heq, _⟩ := generate_label_emitsB opt sc l st st' h
  have hbe : labelBytes opt l = 1 :: i32le (-(toI32 off)) ∧
      labelErr opt l = (if toI32 off = 0 then 1 else 0) := by
    rcases hmode with ⟨hulo, habs⟩ | ⟨hulo, hms, hlo⟩
    · constructor <;> simp [labelBytes, labelErr, hulo, labelAbsD, habs]
    · have hms' : (l.script.type == ScriptType.mission
          || l.script.type == ScriptType.streamedScript) = true := by
        rcases hms with hm | hm <;> simp [hm]
      constructor <;> simp [labelBytes, labelErr, hulo, hms', hlo]
  constructor
  · intro h0
    have hz : (1 : Nat) :: i32le (-(toI32 off)) = [1, 0, 0, 0, 0] := by
      rw [h0]
      decide
    have herr : labelErr opt l = 1 := by
      rw [hbe.2, if_pos h0]
    constructor
    · rw [heq, herr]
      rfl
    constructor
    · rw [heq, herr, hbe.1, hz]
    · rw [heq, hbe.1]
      simp [wrE, i32le_length]
  · intro h0
    have herr : labelErr opt l = 0 := by
      rw [hbe.2, if_neg h0]
    rw [heq, herr]
    rfl

/-- Witness for C4: a zero absolute offset under use_local_offsets
raises the diagnostic and still writes five bytes. -/
theorem C4_witness :
    ((⟨false, false, true, false⟩ : Options).use_local_offsets = true ∧
      (⟨0, ⟨1, ScriptType.main, some 0, some 100, []⟩, some 0⟩ : Label).offsetAbs
        = some 0) ∧
    ((toI32 0 = 0 →
      (1 : Nat) = 0 + 1 ∧
      (⟨[1, 0, 0, 0, 0], 5, 1⟩ : CodeGen) = wrE ⟨[9, 9, 9, 9, 9], 0, 0⟩ [1, 0, 0, 0, 0] 1 ∧
      (5 : Nat) = 0 + 5) ∧
     (toI32 0 ≠ 0 → (1 : Nat) = 0)) := by
  refine ⟨⟨rfl, by rfl⟩, ?_⟩
  exact C4_zero_offset_reports_and_continues ⟨false, false, true, false⟩
    ⟨1, ScriptType.main, some 0, some 100, []⟩
    ⟨0, ⟨1, ScriptType.main, some 0, some 100, []⟩, some 0⟩
    ⟨[9, 9, 9, 9, 9], 0, 0⟩ ⟨[1, 0, 0, 0, 0], 5, 1⟩ 0
    (Or.inl ⟨rfl, by rfl⟩) (by rfl)

/-! ### Header segments as (trampoline skip, body) pairs -/

/-- The bytes of a sequence of header segments laid out from cursor p:
each segment is its trampoline followed by its body. -/
def segConcat : List (Int × List Nat) → Nat → List Nat
  | [], _ => []
  | sb :: rest, p => trampBytes sb.1 p ++ (sb.2 ++ segConcat rest (p + 7 + sb.2.length))

/-- The cursor positions at which the segments start, ending with the
position one past the last segment. -/
def prefixSums : List Nat → Nat → List Nat
  | [], acc => [acc]
  | x :: rest, acc => acc :: prefixSums rest (acc + x)

def segBounds (segs : List (Int × List Nat)) (p : Nat) : List Nat :=
  prefixSums (segs.map (fun sb => 7 + sb.2.length)) p

theorem prefixSums_get_zero (l : List Nat) (acc : Nat) :
    (prefixSums l acc).get? 0 = some acc := by
  cases l <;> rfl

theorem prefixSums_ge (l : List Nat) : ∀ (acc i x : Nat),
    (prefixSums l acc).get? i = some x → acc ≤ x := by
  induction l with
  | nil =>
    intro acc i x hget
    cases i with
    | zero => simp [prefixSums, List.get?] at hget; omega
    | succ i => simp [prefixSums, List.get?] at hget
  | cons y rest ih =>
    intro acc i x hget
    cases i with
    | zero => simp [prefixSums, List.get?] at hget; omega
    | succ i =>
      simp only [prefixSums, List.get?] at hget
      have := ih (acc + y) i x hget
      omega

theorem segConcat_length (segs : List (Int × List Nat)) : ∀ p : Nat,
    (segConcat segs p).length = (segs.map (fun sb => 7 + sb.2.length)).sum := by
  induction segs with
  | nil => intro p; rfl
  | cons sb rest ih =>
    intro p
    simp [segConcat, trampBytes_length, ih]
    omega

/-- The master lemma: in a well-formed segment sequence (every segment
body is one byte longer than its declared skip count, the source
convention), the 7 bytes at every boundary are the trampoline whose i32
target is the next boundary; boundaries are 7 or more bytes apart and
stay inside the image. -/
theorem segConcat_tramp (segs : List (Int × List Nat)) :
    ∀ (p i pi pj : Nat),
    (∀ sb ∈ segs, 8 + sb.1 = 7 + (sb.2.length : Int)) →
    (segBounds segs p).get? i = some pi →
    (segBounds segs p).get? (i + 1) = some pj →
    ((segConcat segs p).drop (pi - p)).take 7 = u16le 2 ++ 1 :: i32le (pj : Int) ∧
    pi + 7 ≤ pj ∧ pj ≤ p + (segConcat segs p).length := by
  induction segs with
  | nil =>
    intro p i pi pj _ hpi hpj
    exfalso
    cases i <;> simp [segBounds, prefixSums, List.get?] at hpj
  | cons sb rest ih =>
    intro p i pi pj hwf hpi hpj
    have hwf1 : 8 + sb.1 = 7 + (sb.2.length : Int) := hwf sb (by simp)
    have hwfr : ∀ x ∈ rest, 8 + x.1 = 7 + (x.2.length : Int) := by
      intro x hx
      exact hwf x (by simp [hx])
    cases i with
    | zero =>
      simp only [segBounds, List.map, prefixSums, List.get?] at hpi hpj
      cases hpi
      rw [prefixSums_get_zero] at hpj
      cases hpj
      constructor
      · rw [Nat.sub_self, List.drop_zero]
        have h7 : (trampBytes sb.1 p).length = 7 := trampBytes_length ..
        rw [segConcat, List.take_left' h7]
        show u16le 2 ++ 1 :: i32le (8 + sb.1 + (p : Int)) = _
        have harg : 8 + sb.1 + (p : Int) = ((p + (7 + sb.2.length) : Nat) : Int) := by
          push_cast
          omega
        rw [harg]
      constructor
      · omega
      · rw [segConcat_length]
        simp
    | succ i =>
      simp only [segBounds, List.map, prefixSums, List.get?] at hpi hpj
      have hge : p + (7 + sb.2.length) ≤ pi :=
        prefixSums_ge _ _ i pi hpi
      obtain ⟨htake, hsep, hend⟩ := ih (p + (7 + sb.2.length)) i pi pj hwfr hpi hpj
      refine ⟨?_, hsep, ?_⟩
      · have hsplit : segConcat (sb :: rest) p
            = (trampBytes sb.1 p ++ sb.2) ++ segConcat rest (p + 7 + sb.2.length) := by
          simp [segConcat, List.append_assoc]
        have hlen12 : (trampBytes sb.1 p ++ sb.2).length = 7 + sb.2.length := by
          simp [trampBytes_length]
        have hdrop : pi - p = (7 + sb.2.length) + (pi - (p + (7 + sb.2.length))) := by
          omega
        rw [hsplit, hdrop, ← List.drop_drop, List.drop_left' hlen12]
        have harg : p + 7 + sb.2.length = p + (7 + sb.2.length) := by omega
        rw [harg]
        exact htake
      · rw [segConcat_length] at hend ⊢
        simp at hend ⊢
        omega

/-! ### The byte images of the individual header segments -/

/-- The bytes the models loop emits. -/
def modelsBytes : List (List Nat) → List Nat
  | [] => []
  | m :: rest => charsBytes 24 m ++ modelsBytes rest

theorem emit_models_emitsB : ∀ ms : List (List Nat),
    EmitsB (fun st => emit_models st ms) (fun _ => modelsBytes ms) 0 := by
  intro ms
  induction ms with
  | nil => exact ok_emitsB
  | cons m rest ih => exact EmitsB_seq (emplace_chars_emitsB 24 m) ih

theorem emit_models_emitsF : ∀ ms : List (List Nat),
    EmitsF (fun st => emit_models st ms) (fun _ => modelsBytes ms) := by
  intro ms
  induction ms with
  | nil => exact ok_emitsF
  | cons m rest ih => exact EmitsF_seq (emplace_chars_emitsF 24 m) ih

theorem modelsBytes_length (ms : List (List Nat)) :
    (modelsBytes ms).length = 24 * ms.length := by
  induction ms with
  | nil => rfl
  | cons m rest ih =>
    simp [modelsBytes, charsBytes_length, ih]
    omega

/-- The bytes the mission offset loop emits. -/
def missionOffsBytes : List Script → List Nat
  | [] => []
  | sc :: rest => i32le ((sc.offset.getD 0 : Nat) : Int) ++ missionOffsBytes rest

theorem emit_mission_offsets_emitsB : ∀ ms : List Script,
    EmitsB (fun st => emit_mission_offsets st ms) (fun _ => missionOffsBytes ms) 0 := by
  intro ms
  induction ms with
  | nil => exact ok_emitsB
  | cons sc rest ih =>
    cases hoff : sc.offset with
    | some o =>
      intro st st' hok
      have hok' : EmpRes.bind (emplace_i32 st (o : Int))
          (fun st => emit_mission_offsets st rest) = EmpRes.ok st' := by
        simpa [emit_mission_offsets, hoff] using hok
      have := EmitsB_seq (emplace_i32_emitsB (o : Int)) ih st st' hok'
      simpa [missionOffsBytes, hoff] using this
    | none =>
      refine NeverOk.emitsB ?_ _ _
      intro st st' hok
      have : EmpRes.fail st = EmpRes.ok st' := by
        simpa [emit_mission_offsets, hoff] using hok
      exact EmpRes.noConfusion this

theorem emit_mission_offsets_emitsF : ∀ ms : List Script,
    (∀ sc ∈ ms, sc.offset.isSome) →
    EmitsF (fun st => emit_mission_offsets st ms) (fun _ => missionOffsBytes ms) := by
  intro ms
  induction ms with
  | nil => intro _; exact ok_emitsF
  | cons sc rest ih =>
    intro hsome
    obtain ⟨o, hoff⟩ := Option.isSome_iff_exists.mp (hsome sc (by simp))
    have ihr := ih (fun x hx => hsome x (by simp [hx]))
    intro st hcap
    have h := EmitsF_seq (emplace_i32_emitsF (o : Int)) ihr st
      (by simpa [missionOffsBytes, hoff, List.length_append] using hcap)
    show emit_mission_offsets st (sc :: rest) = _
    simp only [emit_mission_offsets, hoff]
    simpa [missionOffsBytes, hoff] using h

theorem missionOffsBytes_length (ms : List Script) :
    (missionOffsBytes ms).length = 4 * ms.length := by
  induction ms with
  | nil => rfl
  | cons sc rest ih =>
    simp [missionOffsBytes, i32le_length, ih]
    omega

/-- The bytes the streamed script loop emits, from a given virtual
offset. -/
def streamedsBytes : Nat → List Script → List Nat
  | _, [] => []
  | voff, sc :: rest =>
    charsBytes 20 (sc.stem.map toupperB) ++
      (u32le voff ++ (u32le (sc.size.getD 0) ++ streamedsBytes (voff + sc.size.getD 0) rest))

theorem emit_streameds_emitsB : ∀ (ms : List Script) (voff : Nat),
    EmitsB (fun st => emit_streameds st voff ms) (fun _ => streamedsBytes voff ms) 0 := by
  intro ms
  induction ms with
  | nil => intro voff; exact ok_emitsB
  | cons sc rest ih =>
    intro voff
    cases hsz : sc.size with
    | some sz =>
      intro st st' hok
      have hok' : EmpRes.bind (emplace_chars st 20 (sc.stem.map toupperB)) (fun st =>
          EmpRes.bind (emplace_u32 st voff) (fun st =>
          EmpRes.bind (emplace_u32 st sz) (fun st =>
          emit_streameds st (voff + sz) rest))) = EmpRes.ok st' := by
        simpa [emit_streameds, hsz] using hok
      have := EmitsB_seq (emplace_chars_emitsB 20 (sc.stem.map toupperB))
        (EmitsB_seq (emplace_u32_emitsB voff)
          (EmitsB_seq (emplace_u32_emitsB sz) (ih (voff + sz)))) st st' hok'
      simpa [streamedsBytes, hsz] using this
    | none =>
      refine NeverOk.emitsB ?_ _ _
      intro st st' hok
      have : EmpRes.fail st = EmpRes.ok st' := by
        simpa [emit_streameds, hsz] using hok
      exact EmpRes.noConfusion this

theorem emit_streameds_emitsF : ∀ (ms : List Script) (voff : Nat),
    (∀ sc ∈ ms, sc.size.isSome) →
    EmitsF (fun st => emit_streameds st voff ms) (fun _ => streamedsBytes voff ms) := by
  intro ms
  induction ms with
  | nil => intro voff _; exact ok_emitsF
  | cons sc rest ih =>
    intro voff hsome
    obtain ⟨sz, hsz⟩ := Option.isSome_iff_exists.mp (hsome sc (by simp))
    have ihr := ih (voff + sz) (fun x hx => hsome x (by simp [hx]))
    intro st hcap
    have h := EmitsF_seq (emplace_chars_emitsF 20 (sc.stem.map toupperB))
      (EmitsF_seq (emplace_u32_emitsF voff)
        (EmitsF_seq (emplace_u32_emitsF sz) ihr)) st
      (by simpa [streamedsBytes, hsz, List.length_append] using hcap)
    show emit_streameds st voff (sc :: rest) = _
    simp only [emit_streameds, hsz]
    simpa [streamedsBytes, hsz] using h

theorem streamedsBytes_length (ms : List Script) : ∀ voff : Nat,
    (streamedsBytes voff ms).length = 28 * ms.length := by
  induction ms with
  | nil => intro voff; rfl
  | cons sc rest ih =>
    intro voff
    simp [streamedsBytes, charsBytes_length, u32le_length, ih]
    omega

/-- The body of the variables segment. -/
def varsBody (ver : Version) (sg : Nat) : List Nat :=
  i8b (target_id ver) :: List.replicate (sg - 8) 0

/-- The body of the models segment. -/
def modelsBody (models : List (List Nat)) (segid : Nat) : List Nat :=
  segid % 256 :: (u32le (1 + models.length) ++ (charsBytes 24 [] ++ modelsBytes models))

/-- The body of the SCM info segment. -/
def scmBody (isSA : Bool) (segid mainSize largestMission : Nat)
    (missions : List Script) : List Nat :=
  segid % 256 :: (u32le mainSize ++ (u32le largestMission ++ (u16le missions.length ++
    (u16le 0 ++ ((if isSA then u32le 0 else []) ++ missionOffsBytes missions)))))

/-- The body of the streamed scripts segment. -/
def streamBody (segid largestStreamed multifileSize : Nat)
    (streameds : List Script) : List Nat :=
  segid % 256 :: (u32le largestStreamed ++ (u32le (1 + streameds.length) ++
    (streamedsBytes multifileSize streameds ++
      (charsBytes 20 [65, 65, 65] ++ (u32le 0 ++ u32le 8)))))

/-- The body of the first unknown segment. -/
def unkBody (segid : Nat) : List Nat :=
  segid % 256 :: u32le 0

/-- The body of the second unknown segment. -/
def unk2Body (segid sg : Nat) : List Nat :=
  segid % 256 :: (u32le (sg - 8) ++ (62 :: (2 :: u16le 0)))

theorem gen_seg_vars_emitsB (ver : Version) (sg : Nat) :
    EmitsB (fun st => gen_seg_vars ver sg st)
      (fun p => trampBytes ((sg : Int) - 8) p ++ varsBody ver sg) 0 := by
  have h := EmitsB_seq (goto_rel_emitsB ((sg : Int) - 8))
    (EmitsB_seq (emplace_i8_emitsB (target_id ver)) (emplace_fill_emitsB (sg - 8) 0))
  refine EmitsB_congr (fun p => ?_) h
  simp [varsBody, Nat.mod_eq_of_lt (i8b_lt _)]

theorem gen_seg_vars_emitsF (ver : Version) (sg : Nat) :
    EmitsF (fun st => gen_seg_vars ver sg st)
      (fun p => trampBytes ((sg : Int) - 8) p ++ varsBody ver sg) := by
  have h := EmitsF_seq (goto_rel_emitsF ((sg : Int) - 8))
    (EmitsF_seq (emplace_i8_emitsF (target_id ver)) (emplace_fill_emitsF (sg - 8) 0))
  refine EmitsF_congr (fun p => ?_) h
  simp [varsBody, Nat.mod_eq_of_lt (i8b_lt _)]

theorem gen_seg_models_emitsB (models : List (List Nat)) (segid : Nat) :
    EmitsB (fun st => gen_seg_models models segid st)
      (fun p => trampBytes (4 + 24 * (1 + (models.length : Int))) p
        ++ modelsBody models segid) 0 := by
  have h := EmitsB_seq (goto_rel_emitsB (4 + 24 * (1 + (models.length : Int))))
    (EmitsB_seq (emplace_u8_emitsB segid)
      (EmitsB_seq (emplace_u32_emitsB (1 + models.length))
        (EmitsB_seq (emplace_chars_emitsB 24 []) (emit_models_emitsB models))))
  refine EmitsB_congr (fun p => ?_) h
  simp [modelsBody, mod256_idem]

theorem gen_seg_models_emitsF (models : List (List Nat)) (segid : Nat) :
    EmitsF (fun st => gen_seg_models models segid st)
      (fun p => trampBytes (4 + 24 * (1 + (models.length : Int))) p
        ++ modelsBody models segid) := by
  have h := EmitsF_seq (goto_rel_emitsF (4 + 24 * (1 + (models.length : Int))))
    (EmitsF_seq (emplace_u8_emitsF segid)
      (EmitsF_seq (emplace_u32_emitsF (1 + models.length))
        (EmitsF_seq (emplace_chars_emitsF 24 []) (emit_models_emitsF models))))
  refine EmitsF_congr (fun p => ?_) h
  simp [modelsBody, mod256_idem]

theorem gen_seg_scminfo_emitsB (isSA : Bool) (segid mainSize largestMission : Nat)
    (missions : List Script) :
    EmitsB (fun st => gen_seg_scminfo isSA segid mainSize largestMission missions st)
      (fun p => trampBytes (4 + 4 + 2 + 2 + 4 * (missions.length : Int)
          + (if isSA then 4 else 0)) p
        ++ scmBody isSA segid mainSize largestMission missions) 0 := by
  have h := EmitsB_seq (goto_rel_emitsB (4 + 4 + 2 + 2 + 4 * (missions.length : Int)
      + (if isSA then 4 else 0)))
    (EmitsB_seq (emplace_u8_emitsB segid)
      (EmitsB_seq (emplace_u32_emitsB mainSize)
        (EmitsB_seq (emplace_u32_emitsB largestMission)
          (EmitsB_seq (emplace_u16_emitsB missions.length)
            (EmitsB_seq (emplace_u16_emitsB 0)
              (EmitsB_seq (ite_emitsB isSA (emplace_u32_emitsB 0))
                (emit_mission_offsets_emitsB missions)))))))
  refine EmitsB_congr (fun p => ?_) h
  simp [scmBody, mod256_idem]

theorem gen_seg_scminfo_emitsF (isSA : Bool) (segid mainSize largestMission : Nat)
    (missions : List Script) (hoff : ∀ sc ∈ missions, sc.offset.isSome) :
    EmitsF (fun st => gen_seg_scminfo isSA segid mainSize largestMission missions st)
      (fun p => trampBytes (4 + 4 + 2 + 2 + 4 * (missions.length : Int)
          + (if isSA then 4 else 0)) p
        ++ scmBody isSA segid mainSize largestMission missions) := by
  have h := EmitsF_seq (goto_rel_emitsF (4 + 4 + 2 + 2 + 4 * (missions.length : Int)
      + (if isSA then 4 else 0)))
    (EmitsF_seq (emplace_u8_emitsF segid)
      (EmitsF_seq (emplace_u32_emitsF mainSize)
        (EmitsF_seq (emplace_u32_emitsF largestMission)
          (EmitsF_seq (emplace_u16_emitsF missions.length)
            (EmitsF_seq (emplace_u16_emitsF 0)
              (EmitsF_seq (ite_emitsF isSA (emplace_u32_emitsF 0))
                (emit_mission_offsets_emitsF missions hoff)))))))
  refine EmitsF_congr (fun p => ?_) h
  simp [scmBody, mod256_idem]

theorem gen_seg_streamed_emitsB (segid largestStreamed multifileSize : Nat)
    (streameds : List Script) :
    EmitsB (fun st => gen_seg_streamed segid largestStreamed multifileSize streameds st)
      (fun p => trampBytes (4 + 4 + 28 * (1 + (streameds.length : Int))) p
        ++ streamBody segid largestStreamed multifileSize streameds) 0 := by
  have h := EmitsB_seq (goto_rel_emitsB (4 + 4 + 28 * (1 + (streameds.length : Int))))
    (EmitsB_seq (emplace_u8_emitsB segid)
      (EmitsB_seq (emplace_u32_emitsB largestStreamed)
        (EmitsB_seq (emplace_u32_emitsB (1 + streameds.length))
          (EmitsB_seq (emit_streameds_emitsB streameds multifileSize)
            (EmitsB_seq (emplace_chars_emitsB 20 [65, 65, 65])
              (EmitsB_seq (emplace_u32_emitsB 0) (emplace_u32_emitsB 8)))))))
  refine EmitsB_congr (fun p => ?_) h
  simp [streamBody, mod256_idem]

theorem gen_seg_streamed_emitsF (segid largestStreamed multifileSize : Nat)
    (streameds : List Script) (hsz : ∀ sc ∈ streameds, sc.size.isSome) :
    EmitsF (fun st => gen_seg_streamed segid largestStreamed multifileSize streameds st)
      (fun p => trampBytes (4 + 4 + 28 * (1 + (streameds.length : Int))) p
        ++ streamBody segid largestStreamed multifileSize streameds) := by
  have h := EmitsF_seq (goto_rel_emitsF (4 + 4 + 28 * (1 + (streameds.length : Int))))
    (EmitsF_seq (emplace_u8_emitsF segid)
      (EmitsF_seq (emplace_u32_emitsF largestStreamed)
        (EmitsF_seq (emplace_u32_emitsF (1 + streameds.length))
          (EmitsF_seq (emit_streameds_emitsF streameds multifileSize hsz)
            (EmitsF_seq (emplace_chars_emitsF 20 [65, 65, 65])
              (EmitsF_seq (emplace_u32_emitsF 0) (emplace_u32_emitsF 8)))))))
  refine EmitsF_congr (fun p => ?_) h
  simp [streamBody, mod256_idem]

theorem gen_seg_unknown_emitsB (segid : Nat) :
    EmitsB (fun st => gen_seg_unknown segid st)
      (fun p => trampBytes 4 p ++ unkBody segid) 0 := by
  have h := EmitsB_seq (goto_rel_emitsB 4)
    (EmitsB_seq (emplace_u8_emitsB segid) (emplace_u32_emitsB 0))
  refine EmitsB_congr (fun p => ?_) h
  simp [unkBody, mod256_idem]

theorem gen_seg_unknown_emitsF (segid : Nat) :
    EmitsF (fun st => gen_seg_unknown segid st)
      (fun p => trampBytes 4 p ++ unkBody segid) := by
  have h := EmitsF_seq (goto_rel_emitsF 4)
    (EmitsF_seq (emplace_u8_emitsF segid) (emplace_u32_emitsF 0))
  refine EmitsF_congr (fun p => ?_) h
  simp [unkBody, mod256_idem]

theorem gen_seg_unknown2_emitsB (segid sg : Nat) :
    EmitsB (fun st => gen_seg_unknown2 segid sg st)
      (fun p => trampBytes (4 + 1 + 1 + 2) p ++ unk2Body segid sg) 0 := by
  have h := EmitsB_seq (goto_rel_emitsB (4 + 1 + 1 + 2))
    (EmitsB_seq (emplace_u8_emitsB segid)
      (EmitsB_seq (emplace_u32_emitsB (sg - 8))
        (EmitsB_seq (emplace_u8_emitsB 62)
          (EmitsB_seq (emplace_u8_emitsB 2) (emplace_u16_emitsB 0)))))
  refine EmitsB_congr (fun p => ?_) h
  simp [unk2Body, mod256_idem]

theorem gen_seg_unknown2_emitsF (segid sg : Nat) :
    EmitsF (fun st => gen_seg_unknown2 segid sg st)
      (fun p => trampBytes (4 + 1 + 1 + 2) p ++ unk2Body segid sg) := by
  have h := EmitsF_seq (goto_rel_emitsF (4 + 1 + 1 + 2))
    (EmitsF_seq (emplace_u8_emitsF segid)
      (EmitsF_seq (emplace_u32_emitsF (sg - 8))
        (EmitsF_seq (emplace_u8_emitsF 62)
          (EmitsF_seq (emplace_u8_emitsF 2) (emplace_u16_emitsF 0)))))
  refine EmitsF_congr (fun p => ?_) h
  simp [unk2Body, mod256_idem]

/-! ### The header as a segment sequence -/

/-- The (skip, body) pairs of the header segments, in emission order. -/
def headerSegs (h : CompiledScmHeader) : List (Int × List Nat) :=
  match scanScripts h.scripts with
  | none => []
  | some (mainAdd, mfAdd, largestMission, largestStreamed, missions, streameds) =>
    let isSA := h.version == Version.sanAndreas
    [(((h.size_global_vars_space : Int) - 8),
       varsBody h.version h.size_global_vars_space),
     ((4 + 24 * (1 + (h.models.length : Int))), modelsBody h.models 0),
     ((4 + 4 + 2 + 2 + 4 * (missions.length : Int) + (if isSA then 4 else 0)),
       scmBody isSA (if isSA then 1 else 0) (h.compiled_size + mainAdd)
         largestMission missions)]
    ++ (if isSA then
        [((4 + 4 + 28 * (1 + (streameds.length : Int))),
           streamBody 2 largestStreamed (h.compiled_size + mfAdd) streameds),
         ((4 : Int), unkBody 3),
         ((4 + 1 + 1 + 2 : Int), unk2Body 4 h.size_global_vars_space)]
      else [])

/-- The bytes the header generator emits from cursor p. -/
def headerOut (h : CompiledScmHeader) : Nat → List Nat :=
  segConcat (headerSegs h)

theorem generate_header_emitsB (h : CompiledScmHeader) :
    EmitsB (fun st => generate_header h st) (headerOut h) 0 := by
  cases hscan : scanScripts h.scripts with
  | none =>
    intro st st' hok
    have hfail : EmpRes.fail st = EmpRes.ok st' := by
      simpa [generate_header, hscan] using hok
    exact EmpRes.noConfusion hfail
  | some tup =>
    obtain ⟨mainAdd, mfAdd, lm, ls, missions, streameds⟩ := tup
    have hcomp := EmitsB_seq (gen_seg_vars_emitsB h.version h.size_global_vars_space)
      (EmitsB_seq (gen_seg_models_emitsB h.models 0)
        (EmitsB_seq (gen_seg_scminfo_emitsB (h.version == Version.sanAndreas)
            (if h.version == Version.sanAndreas then 1 else 0)
            (h.compiled_size + mainAdd) lm missions)
          (EmitsB_seq (ite_emitsB (h.version == Version.sanAndreas)
              (gen_seg_streamed_emitsB 2 ls (h.compiled_size + mfAdd) streameds))
            (EmitsB_seq (ite_emitsB (h.version == Version.sanAndreas)
                (gen_seg_unknown_emitsB 3))
              (ite_emitsB (h.version == Version.sanAndreas)
                (gen_seg_unknown2_emitsB 4 h.size_global_vars_space))))))
    intro st st' hok
    simp only [generate_header, hscan] at hok
    refine (EmitsB_congr (fun p => ?_) hcomp) st st' hok
    simp only [headerOut, headerSegs, hscan]
    by_cases hsa : (h.version == Version.sanAndreas) = true <;>
      simp [hsa, segConcat, trampBytes_length, List.append_assoc,
        List.length_append, Nat.add_assoc]

theorem generate_header_emitsF (h : CompiledScmHeader)
    (hmi : ∀ sc ∈ h.scripts, sc.type = ScriptType.mission → sc.offset.isSome)
    (hsz : ∀ sc ∈ h.scripts, sc.size.isSome)
    (tup : Nat × Nat × Nat × Nat × List Script × List Script)
    (hscan : scanScripts h.scripts = some tup)
    (hmis : ∀ sc ∈ tup.2.2.2.2.1, sc ∈ h.scripts ∧ sc.type = ScriptType.mission)
    (hstr : ∀ sc ∈ tup.2.2.2.2.2, sc ∈ h.scripts) :
    EmitsF (fun st => generate_header h st) (headerOut h) := by
  obtain ⟨mainAdd, mfAdd, lm, ls, missions, streameds⟩ := tup
  have hoffm : ∀ sc ∈ missions, sc.offset.isSome := by
    intro sc hsc
    obtain ⟨hin, hty⟩ := hmis sc hsc
    exact hmi sc hin hty
  have hszs : ∀ sc ∈ streameds, sc.size.isSome := by
    intro sc hsc
    exact hsz sc (hstr sc hsc)
  have hcomp := EmitsF_seq (gen_seg_vars_emitsF h.version h.size_global_vars_space)
    (EmitsF_seq (gen_seg_models_emitsF h.models 0)
      (EmitsF_seq (gen_seg_scminfo_emitsF (h.version == Version.sanAndreas)
          (if h.version == Version.sanAndreas then 1 else 0)
          (h.compiled_size + mainAdd) lm missions hoffm)
        (EmitsF_seq (ite_emitsF (h.version == Version.sanAndreas)
            (gen_seg_streamed_emitsF 2 ls (h.compiled_size + mfAdd) streameds hszs))
          (EmitsF_seq (ite_emitsF (h.version == Version.sanAndreas)
              (gen_seg_unknown_emitsF 3))
            (ite_emitsF (h.version == Version.sanAndreas)
              (gen_seg_unknown2_emitsF 4 h.size_global_vars_space))))))
  refine EmitsF_congrG ?_ (EmitsF_congr ?_ hcomp)
  · intro st
    simp [generate_header, hscan]
  · intro p
    simp only [headerOut, headerSegs, hscan]
    by_cases hsa : (h.version == Version.sanAndreas) = true <;>
      simp [hsa, segConcat, trampBytes_length, List.append_assoc,
        List.length_append, Nat.add_assoc]

/-! ### Properties of the script scan -/

/-- The number of Mission scripts in a script list. -/
def missionCount (scripts : List Script) : Nat :=
  (scripts.filter (fun sc => sc.type == ScriptType.mission)).length

/-- The number of StreamedScript scripts in a script list. -/
def streamedCount (scripts : List Script) : Nat :=
  (scripts.filter (fun sc => sc.type == ScriptType.streamedScript)).length

theorem scanScripts_isSome : ∀ scripts : List Script,
    (∀ sc ∈ scripts, sc.size.isSome) → (scanScripts scripts).isSome = true := by
  intro scripts
  induction scripts with
  | nil => intro _; rfl
  | cons sc rest ih =>
    intro hsz
    obtain ⟨sz, hsc⟩ := Option.isSome_iff_exists.mp (hsz sc (by simp))
    have hr := ih (fun x hx => hsz x (by simp [hx]))
    obtain ⟨tup, htup⟩ := Option.isSome_iff_exists.mp hr
    obtain ⟨ma, mf, lm, ls, mi, str⟩ := tup
    cases hty : sc.type <;> simp [scanScripts, hsc, htup, hty]

theorem scan_props : ∀ (scripts : List Script) (ma mf lm ls : Nat) (mi str : List Script),
    scanScripts scripts = some (ma, mf, lm, ls, mi, str) →
    mi.length = missionCount scripts ∧ str.length = streamedCount scripts ∧
    (∀ sc ∈ mi, sc ∈ scripts ∧ sc.type = ScriptType.mission) ∧
    (∀ sc ∈ str, sc ∈ scripts) := by
  intro scripts
  induction scripts with
  | nil =>
    intro ma mf lm ls mi str hscan
    simp [scanScripts, Prod.ext_iff] at hscan
    obtain ⟨-, -, -, -, hmi, hstr⟩ := hscan
    subst hmi
    subst hstr
    simp [missionCount, streamedCount]
  | cons sc rest ih =>
    intro ma mf lm ls mi str hscan
    cases hsc : sc.size with
    | none => simp [scanScripts, hsc] at hscan
    | some sz =>
      cases hrest : scanScripts rest with
      | none => simp [scanScripts, hsc, hrest] at hscan
      | some tup =>
        obtain ⟨ma', mf', lm', ls', mi', str'⟩ := tup
        cases hty : sc.type with
        | mission =>
          simp only [scanScripts, hsc, hrest, hty, Option.some.injEq, Prod.ext_iff] at hscan
          obtain ⟨-, -, -, -, hmi, hstr⟩ := hscan
          obtain ⟨h1, h2, h3, h4⟩ := ih ma' mf' lm' ls' mi' str' hrest
          subst hmi
          subst hstr
          refine ⟨?_, ?_, ?_, ?_⟩
          · simp [missionCount, List.filter_cons, hty, List.length_cons]
            simpa [missionCount] using h1
          · simpa [streamedCount, List.filter_cons, hty] using h2
          · intro x hx
            rcases List.mem_cons.mp hx with hx | hx
            · subst hx
              exact ⟨by simp, hty⟩
            · obtain ⟨ha, hb⟩ := h3 x hx
              exact ⟨by simp [ha], hb⟩
          · intro x hx
            exact List.mem_cons_of_mem _ (h4 x hx)
        | streamedScript =>
          simp only [scanScripts, hsc, hrest, hty, Option.some.injEq, Prod.ext_iff] at hscan
          obtain ⟨-, -, -, -, hmi, hstr⟩ := hscan
          obtain ⟨h1, h2, h3, h4⟩ := ih ma' mf' lm' ls' mi' str' hrest
          subst hmi
          subst hstr
          refine ⟨?_, ?_, ?_, ?_⟩
          · simpa [missionCount, List.filter_cons, hty] using h1
          · simp [streamedCount, List.filter_cons, hty, List.length_cons]
            simpa [streamedCount] using h2
          · intro x hx
            obtain ⟨ha, hb⟩ := h3 x hx
            exact ⟨by simp [ha], hb⟩
          · intro x hx
            rcases List.mem_cons.mp hx with hx | hx
            · subst hx
              simp
            · exact List.mem_cons_of_mem _ (h4 x hx)
        | main =>
          simp only [scanScripts, hsc, hrest, hty, Option.some.injEq, Prod.ext_iff] at hscan
          obtain ⟨-, -, -, -, hmi, hstr⟩ := hscan
          obtain ⟨h1, h2, h3, h4⟩ := ih ma' mf' lm' ls' mi' str' hrest
          subst hmi
          subst hstr
          refine ⟨?_, ?_, ?_, ?_⟩
          · simpa [missionCount, List.filter_cons, hty] using h1
          · simpa [streamedCount, List.filter_cons, hty] using h2
          · intro x hx
            obtain ⟨ha, hb⟩ := h3 x hx
            exact ⟨by simp [ha], hb⟩
          · intro x hx
            exact List.mem_cons_of_mem _ (h4 x hx)
        | mainExtension =>
          simp only [scanScripts, hsc, hrest, hty, Option.some.injEq, Prod.ext_iff] at hscan
          obtain ⟨-, -, -, -, hmi, hstr⟩ := hscan
          obtain ⟨h1, h2, h3, h4⟩ := ih ma' mf' lm' ls' mi' str' hrest
          subst hmi
          subst hstr
          refine ⟨?_, ?_, ?_, ?_⟩
          · simpa [missionCount, List.filter_cons, hty] using h1
          · simpa [streamedCount, List.filter_cons, hty] using h2
          · intro x hx
            obtain ⟨ha, hb⟩ := h3 x hx
            exact ⟨by simp [ha], hb⟩
          · intro x hx
            exact List.mem_cons_of_mem _ (h4 x hx)
        | subscript =>
          simp only [scanScripts, hsc, hrest, hty, Option.some.injEq, Prod.ext_iff] at hscan
          obtain ⟨-, -, -, -, hmi, hstr⟩ := hscan
          obtain ⟨h1, h2, h3, h4⟩ := ih ma' mf' lm' ls' mi' str' hrest
          subst hmi
          subst hstr
          refine ⟨?_, ?_, ?_, ?_⟩
          · simpa [missionCount, List.filter_cons, hty] using h1
          · simpa [streamedCount, List.filter_cons, hty] using h2
          · intro x hx
            obtain ⟨ha, hb⟩ := h3 x hx
            exact ⟨by simp [ha], hb⟩
          · intro x hx
            exact List.mem_cons_of_mem _ (h4 x hx)

/-! ### Segment body lengths and the header image length -/

theorem varsBody_length (ver : Version) (sg : Nat) :
    (varsBody ver sg).length = 1 + (sg - 8) := by
  simp [varsBody]
  omega

theorem modelsBody_length (ms : List (List Nat)) (segid : Nat) :
    (modelsBody ms segid).length = 29 + 24 * ms.length := by
  simp [modelsBody, u32le_length, charsBytes_length, modelsBytes_length]
  omega

theorem scmBody_length (isSA : Bool) (segid a b : Nat) (mi : List Script) :
    (scmBody isSA segid a b mi).length
      = 13 + (if isSA then 4 else 0) + 4 * mi.length := by
  cases isSA <;>
    simp [scmBody, u32le_length, u16le_length, missionOffsBytes_length] <;> omega

theorem streamBody_length (segid a b : Nat) (str : List Script) :
    (streamBody segid a b str).length = 37 + 28 * str.length := by
  simp [streamBody, u32le_length, charsBytes_length, streamedsBytes_length]
  omega

theorem unkBody_length (segid : Nat) : (unkBody segid).length = 5 := rfl

theorem unk2Body_length (segid sg : Nat) : (unk2Body segid sg).length = 9 := rfl

theorem headerOut_length (h : CompiledScmHeader) (ma mf lm ls : Nat)
    (mi str : List Script)
    (hscan : scanScripts h.scripts = some (ma, mf, lm, ls, mi, str)) (p : Nat) :
    (headerOut h p).length
      = (8 + (h.size_global_vars_space - 8)) + (12 + 24 * (1 + h.models.length))
        + (20 + (if h.version == Version.sanAndreas then 4 else 0) + 4 * mi.length)
        + (if h.version == Version.sanAndreas then 44 + 28 * (1 + str.length) else 0) := by
  simp only [headerOut, headerSegs, hscan]
  by_cases hsa : (h.version == Version.sanAndreas) = true <;>
    simp [hsa, segConcat_length, varsBody_length, modelsBody_length, scmBody_length,
      streamBody_length, unkBody_length, unk2Body_length] <;> omega

theorem compiled_size_closed (h : CompiledScmHeader) :
    h.compiled_size
      = (8 + (h.size_global_vars_space - 8)) + (12 + 24 * (1 + h.models.length))
        + (20 + (if h.version == Version.sanAndreas then 4 else 0) + 4 * h.num_missions)
        + (if h.version == Version.sanAndreas
            then 44 + 28 * (1 + h.num_streamed) else 0) := by
  rcases h with ⟨ver, sg, models, nm, ns, scripts⟩
  cases ver <;> simp [CompiledScmHeader.compiled_size] <;> omega

/-! ### Claim C10: the header image size against compiled_size -/

/-- C10 counterexample: for a Liberty header, num_streamed is never read
by the emitter nor by compiled_size, so a header whose num_streamed
field (5) disagrees with the one streamed script in the list still emits
exactly compiled_size bytes, refuting 'if either count disagrees with
the script list, the bytes emitted differ from compiled_size()'. -/
theorem C10_counterexample :
    streamedCount [⟨1, ScriptType.streamedScript, some 0, some 4, []⟩] ≠ 5 ∧
    (generate_header
        ⟨Version.liberty, 16, [], 0, 5, [⟨1, ScriptType.streamedScript, some 0, some 4, []⟩]⟩
        ⟨List.replicate 72 0, 0, 0⟩).isOk = true ∧
    (generate_header
        ⟨Version.liberty, 16, [], 0, 5, [⟨1, ScriptType.streamedScript, some 0, some 4, []⟩]⟩
        ⟨List.replicate 72 0, 0, 0⟩).stOf.offset
      = CompiledScmHeader.compiled_size
          ⟨Version.liberty, 16, [], 0, 5, [⟨1, ScriptType.streamedScript, some 0, some 4, []⟩]⟩ := by
  refine ⟨by decide, by rfl, by rfl⟩

/-- C10 (amended): under the input contract (all script sizes set,
mission offsets set, size_global_vars_space at least 8) and a buffer of
capacity compiled_size(): when num_missions and num_streamed both match
the script list, generate succeeds and the final cursor equals
compiled_size (so no capacity assertion fires); when num_missions
disagrees (with num_streamed agreeing on SanAndreas), or on SanAndreas
num_streamed disagrees with num_missions agreeing, no successful run can
end at compiled_size — the emitted bytes differ from it. For Liberty and
Miami the num_streamed field is ignored entirely, and two simultaneous
disagreements can cancel (4 per mission against 28 per streamed). -/
theorem C10_amended_header_size (h : CompiledScmHeader) (init : List Nat)
    (hsz : ∀ sc ∈ h.scripts, sc.size.isSome)
    (hoff : ∀ sc ∈ h.scripts, sc.type = ScriptType.mission → sc.offset.isSome)
    (hsg : 8 ≤ h.size_global_vars_space)
    (hcap : init.length = h.compiled_size) :
    ((missionCount h.scripts = h.num_missions
        ∧ streamedCount h.scripts = h.num_streamed) →
      (generate_header h ⟨init, 0, 0⟩).isOk = true ∧
      (∀ st', generate_header h ⟨init, 0, 0⟩ = EmpRes.ok st' →
        st'.offset = h.compiled_size)) ∧
    (((missionCount h.scripts ≠ h.num_missions ∧
        (h.version = Version.sanAndreas → streamedCount h.scripts = h.num_streamed)) ∨
      (h.version = Version.sanAndreas ∧ streamedCount h.scripts ≠ h.num_streamed ∧
        missionCount h.scripts = h.num_missions)) →
      (∀ st', generate_header h ⟨init, 0, 0⟩ = EmpRes.ok st' →
        st'.offset ≠ h.compiled_size)) := by
  obtain ⟨tup, hscan⟩ := Option.isSome_iff_exists.mp (scanScripts_isSome h.scripts hsz)
  obtain ⟨ma, mf, lm, ls, mi, str⟩ := tup
  obtain ⟨hc1, hc2, hmis, hstr⟩ := scan_props h.scripts ma mf lm ls mi str hscan
  have hlen := headerOut_length h ma mf lm ls mi str hscan 0
  have hcs := compiled_size_closed h
  have hwr_off : ∀ st', generate_header h ⟨init, 0, 0⟩ = EmpRes.ok st' →
      st'.offset = (headerOut h 0).length := by
    intro st' hok
    obtain ⟨heq, _⟩ := generate_header_emitsB h _ st' hok
    rw [heq]
    simp [wrE]
  constructor
  · intro ⟨hm, hs⟩
    have hA : (headerOut h 0).length = h.compiled_size := by
      by_cases hsa : (h.version == Version.sanAndreas) = true <;>
        simp only [hsa, if_true, if_false, Bool.false_eq_true] at hlen hcs <;> omega
    have hrun := generate_header_emitsF h hoff hsz (ma, mf, lm, ls, mi, str) hscan
      hmis hstr ⟨init, 0, 0⟩ (by simp [hA, hcap])
    constructor
    · have hrun' : generate_header h ⟨init, 0, 0⟩
          = EmpRes.ok (wrE ⟨init, 0, 0⟩ (headerOut h 0) 0) := hrun
      rw [hrun']
      rfl
    · intro st' hok
      rw [hwr_off st' hok, hA]
  · intro hmm st' hok
    rw [hwr_off st' hok]
    by_cases hsa : (h.version == Version.sanAndreas) = true
    · have hv : h.version = Version.sanAndreas := by
        simpa using hsa
      simp only [hsa, if_true] at hlen hcs
      rcases hmm with ⟨hm, hs⟩ | ⟨-, hs, hm⟩
      · have hs' := hs hv
        omega
      · omega
    · have hv : ¬ (h.version = Version.sanAndreas) := by
        simpa using hsa
      simp only [hsa, if_false, Bool.false_eq_true] at hlen hcs
      rcases hmm with ⟨hm, -⟩ | ⟨hv', -⟩
      · omega
      · exact absurd hv' hv

/-- Witness for the amended C10: the smallest Liberty header with
matching counts emits exactly its 72 compiled_size bytes. -/
theorem C10_amended_witness :
    (∀ sc ∈ ([] : List Script), sc.size.isSome) ∧
    (missionCount ([] : List Script) = 0 ∧ streamedCount ([] : List Script) = 0 →
      (generate_header ⟨Version.liberty, 16, [], 0, 0, []⟩
        ⟨List.replicate 72 7, 0, 0⟩).isOk = true ∧
      (∀ st', generate_header ⟨Version.liberty, 16, [], 0, 0, []⟩
          ⟨List.replicate 72 7, 0, 0⟩ = EmpRes.ok st' →
        st'.offset = CompiledScmHeader.compiled_size
          ⟨Version.liberty, 16, [], 0, 0, []⟩)) := by
  refine ⟨by simp, ?_⟩
  exact (C10_amended_header_size ⟨Version.liberty, 16, [], 0, 0, []⟩
    (List.replicate 72 7) (by simp) (by simp) (by decide) (by decide)).1

/-! ### Claim C6: the variables segment body -/

/-- C6 counterexample: with size_global_vars_space = 16 the variables
segment of a Liberty header occupies 16 bytes, a 7-byte trampoline
(2 + 1 + 4) followed by a 9-byte body: the target id byte and then
16 - 8 = 8 zero bytes, so the body after the trampoline has 9 bytes,
not the 16 - 8 = 8 the claim states. -/
theorem C6_counterexample :
    gen_seg_vars Version.liberty 16 ⟨List.replicate 16 9, 0, 0⟩
      = EmpRes.ok ⟨[2, 0, 1, 16, 0, 0, 0, 0, 0, 0, 0, 0, 0, 0, 0, 0], 16, 0⟩ ∧
    (([2, 0, 1, 16, 0, 0, 0, 0, 0, 0, 0, 0, 0, 0, 0, 0] : List Nat).drop 7)
      = 0 :: List.replicate 8 0 ∧
    (([2, 0, 1, 16, 0, 0, 0, 0, 0, 0, 0, 0, 0, 0, 0, 0] : List Nat).drop 7).length
      ≠ 16 - 8 := by
  refine ⟨by rfl, by decide, by decide⟩

/-- C6 (amended): for every dialect and size_global_vars_space >= 8, the
variables segment body emitted after the 7-byte trampoline consists of
the 1-byte target id (0 for Liberty, 109 for Miami, 115 for SanAndreas)
followed by exactly size_global_vars_space - 8 zero bytes, for a total
body of size_global_vars_space - 7 bytes (the whole segment totalling
size_global_vars_space bytes). -/
theorem C6_amended_vars_segment_body (ver : Version) (sg : Nat) (st st' : CodeGen)
    (hsg : 8 ≤ sg) (h : gen_seg_vars ver sg st = EmpRes.ok st') :
    st' = wrE st (trampBytes ((sg : Int) - 8) st.offset
        ++ (i8b (target_id ver) :: List.replicate (sg - 8) 0)) 0 ∧
    (i8b (target_id ver) :: List.replicate (sg - 8) 0).length = (sg - 8) + 1 ∧
    7 + ((sg - 8) + 1) = sg ∧
    i8b (target_id Version.liberty) = 0 ∧
    i8b (target_id Version.miami) = 109 ∧
    i8b (target_id Version.sanAndreas) = 115 := by
  obtain ⟨heq, _⟩ := gen_seg_vars_emitsB ver sg st st' h
  refine ⟨by simpa [varsBody] using heq, by simp, by omega, by decide,
    by decide, by decide⟩

/-- Witness for the amended C6: the Liberty variables segment with
size_global_vars_space = 16. -/
theorem C6_amended_witness :
    8 ≤ 16 ∧
    ((⟨[2, 0, 1, 16, 0, 0, 0, 0, 0, 0, 0, 0, 0, 0, 0, 0], 16, 0⟩ : CodeGen)
        = wrE ⟨List.replicate 16 9, 0, 0⟩ (trampBytes ((16 : Int) - 8) 0
            ++ (i8b (target_id Version.liberty) :: List.replicate (16 - 8) 0)) 0 ∧
      (i8b (target_id Version.liberty) :: List.replicate (16 - 8) 0).length
        = (16 - 8) + 1 ∧
      7 + ((16 - 8) + 1) = 16 ∧
      i8b (target_id Version.liberty) = 0 ∧
      i8b (target_id Version.miami) = 109 ∧
      i8b (target_id Version.sanAndreas) = 115) := by
  refine ⟨by decide, ?_⟩
  exact C6_amended_vars_segment_body Version.liberty 16 ⟨List.replicate 16 9, 0, 0⟩
    ⟨[2, 0, 1, 16, 0, 0, 0, 0, 0, 0, 0, 0, 0, 0, 0, 0], 16, 0⟩ (by decide) (by rfl)

/-! ### Claim C7: every header segment begins with a trampoline aimed
past its body -/

theorem prefixSums_get_last : ∀ (l : List Nat) (acc : Nat),
    (prefixSums l acc).get? l.length = some (acc + l.sum) := by
  intro l
  induction l with
  | nil => intro acc; simp [prefixSums, List.get?]
  | cons x rest ih =>
    intro acc
    simp only [prefixSums, List.length_cons, List.get?, ih, Option.some.injEq,
      List.sum_cons]
    omega

/-- The byte sizes of the header segments, trampolines included, from
the header fields. -/
def segLens (h : CompiledScmHeader) : List Nat :=
  [8 + (h.size_global_vars_space - 8),
   12 + 24 * (1 + h.models.length),
   20 + (if h.version == Version.sanAndreas then 4 else 0) + 4 * h.num_missions]
  ++ (if h.version == Version.sanAndreas
      then [16 + 28 * (1 + h.num_streamed), 12, 16] else [])

/-- The positions at which the header segments start, plus the header
end. -/
def segBoundaries (h : CompiledScmHeader) : List Nat :=
  prefixSums (segLens h) 0

theorem segLens_sum (h : CompiledScmHeader) : (segLens h).sum = h.compiled_size := by
  rcases h with ⟨ver, sg, models, nm, ns, scripts⟩
  cases ver <;> simp [segLens, CompiledScmHeader.compiled_size] <;> omega

/-- C7: in a successful header emission (with the mission and streamed
counts matching the script list, per the input contract), the seven
bytes at every segment boundary are the u16 opcode 0x0002, the tag 0x01,
and an i32 target equal to the next boundary — the position of the first
byte of the next segment, or the header end for the last segment, since
the boundary list starts at 0 and ends at compiled_size. -/
theorem C7_trampoline_targets_next_segment (h : CompiledScmHeader) (init : List Nat)
    (st' : CodeGen)
    (hsg : 8 ≤ h.size_global_vars_space)
    (hm : missionCount h.scripts = h.num_missions)
    (hs : streamedCount h.scripts = h.num_streamed)
    (hrun : generate_header h ⟨init, 0, 0⟩ = EmpRes.ok st')
    (i pi pj : Nat)
    (hpi : (segBoundaries h).get? i = some pi)
    (hpj : (segBoundaries h).get? (i + 1) = some pj) :
    (st'.buf.drop pi).take 7 = u16le 2 ++ 1 :: i32le (pj : Int) ∧
    (segBoundaries h).get? 0 = some 0 ∧
    (segBoundaries h).get? (segLens h).length = some h.compiled_size := by
  refine ⟨?_, prefixSums_get_zero _ _, ?_⟩
  · cases hscan : scanScripts h.scripts with
    | none =>
      exfalso
      have : EmpRes.fail (⟨init, 0, 0⟩ : CodeGen) = EmpRes.ok st' := by
        simpa [generate_header, hscan] using hrun
      exact EmpRes.noConfusion this
    | some tup =>
      obtain ⟨ma, mf, lm, ls, mi, str⟩ := tup
      obtain ⟨hc1, hc2, -, -⟩ := scan_props h.scripts ma mf lm ls mi str hscan
      have hlist : (headerSegs h).map (fun sb => 7 + sb.2.length) = segLens h := by
        simp only [headerSegs, hscan, segLens]
        by_cases hsa : (h.version == Version.sanAndreas) = true <;>
          simp [hsa, varsBody_length, modelsBody_length, scmBody_length,
            streamBody_length, unkBody_length, unk2Body_length] <;> omega
      have hbounds : segBounds (headerSegs h) 0 = segBoundaries h := by
        rw [segBounds, hlist]
        rfl
      have hwf : ∀ sb ∈ headerSegs h, 8 + sb.1 = 7 + (sb.2.length : Int) := by
        simp only [headerSegs, hscan]
        by_cases hsa : (h.version == Version.sanAndreas) = true <;>
          simp [hsa, varsBody_length, modelsBody_length, scmBody_length,
            streamBody_length, unkBody_length, unk2Body_length] <;>
          push_cast <;> omega
      obtain ⟨htake, hsep, hend⟩ := segConcat_tramp (headerSegs h) 0 i pi pj hwf
        (by rw [hbounds]; exact hpi) (by rw [hbounds]; exact hpj)
      obtain ⟨heq, hbound⟩ := generate_header_emitsB h _ st' hrun
      have hofs : st'.offset = (headerOut h 0).length := by
        rw [heq]
        simp [wrE]
      have hbuflen : st'.buf.length = init.length := by
        rw [heq]
        exact wrE_buf_length ..
      have hHBpos : 0 < (headerOut h 0).length := by
        rw [headerOut_length h ma mf lm ls mi str hscan 0]
        omega
      have hend' : pj ≤ (headerOut h 0).length := by
        simpa [headerOut] using hend
      have hcapHB : (headerOut h 0).length ≤ init.length := by
        rcases hbound with hb | hz
        · rw [hofs, hbuflen] at hb
          exact hb
        · rw [hz] at hHBpos
          omega
      have hbuf : st'.buf = headerOut h 0 ++ init.drop (headerOut h 0).length := by
        rw [heq]
        show setBytesL init 0 (headerOut h 0) = _
        rw [setBytesL_splice _ _ _ (by simpa using hcapHB)]
        simp
      rw [hbuf, List.drop_append_eq_append_drop]
      have hlen_drop : 7 ≤ ((headerOut h 0).drop pi).length := by
        simp only [List.length_drop]
        omega
      rw [List.take_append_eq_append_take]
      have h70 : 7 - ((headerOut h 0).drop pi).length = 0 := by omega
      rw [h70, List.take_zero, List.append_nil]
      simpa [headerOut] using htake
  · rw [segBoundaries, prefixSums_get_last, Nat.zero_add, segLens_sum]

/-- Witness for C7: the first boundary pair of the minimal Liberty
header; the variables segment trampoline at offset 0 targets offset 16,
where the models segment starts. -/
theorem C7_witness :
    (8 ≤ 16 ∧
      missionCount ([] : List Script) = 0 ∧ streamedCount ([] : List Script) = 0 ∧
      generate_header ⟨Version.liberty, 16, [], 0, 0, []⟩ ⟨List.replicate 72 7, 0, 0⟩
        = EmpRes.ok ((generate_header ⟨Version.liberty, 16, [], 0, 0, []⟩
            ⟨List.replicate 72 7, 0, 0⟩).stOf) ∧
      (segBoundaries ⟨Version.liberty, 16, [], 0, 0, []⟩).get? 0 = some 0 ∧
      (segBoundaries ⟨Version.liberty, 16, [], 0, 0, []⟩).get? 1 = some 16) ∧
    (((generate_header ⟨Version.liberty, 16, [], 0, 0, []⟩
          ⟨List.replicate 72 7, 0, 0⟩).stOf.buf.drop 0).take 7
        = u16le 2 ++ 1 :: i32le (16 : Int) ∧
      (segBoundaries ⟨Version.liberty, 16, [], 0, 0, []⟩).get? 0 = some 0 ∧
      (segBoundaries ⟨Version.liberty, 16, [], 0, 0, []⟩).get?
          (segLens ⟨Version.liberty, 16, [], 0, 0, []⟩).length
        = some (CompiledScmHeader.compiled_size ⟨Version.liberty, 16, [], 0, 0, []⟩)) := by
  refine ⟨⟨by decide, by decide, by decide, by rfl, by decide, by decide⟩, ?_⟩
  exact C7_trampoline_targets_next_segment ⟨Version.liberty, 16, [], 0, 0, []⟩
    (List.replicate 72 7)
    ((generate_header ⟨Version.liberty, 16, [], 0, 0, []⟩
      ⟨List.replicate 72 7, 0, 0⟩).stOf)
    (by decide) (by decide) (by decide) (by rfl) 0 0 16 (by decide) (by decide)

end G3sc
